import Mathlib

/-!
Shallow embedding of the `async_sunspec2` discovery/decoding engine
(`types.py`, `parser.py`, `scanner.py`, `model_registry.py`,
`exceptions.py`) and proofs about it.

Conventions of the embedding:
* 16-bit registers are natural numbers; the Python code masks with
  `& 0xFFFF` wherever it consumes them, and the embedding mirrors each mask.
* Python exceptions become an explicit error type `EngErr`; each exception
  class of the engine's taxonomy, plus the Python builtins the code can
  raise (`IndexError`, `KeyError`, `ValueError`, `AssertionError`), is one
  constructor.
* Python `float` values are modelled as exact rationals `ℚ` (ignoring IEEE
  rounding); decoded raw values are integers or strings.
* `async` functions have no internal concurrency; they are modelled as
  pure functions of the injected link.
-/

namespace SunSpec

/-- A decoded Python value: `int`, `float` (modelled as `ℚ`) or `str`. -/
inductive Value where
  | i (z : ℤ)
  | q (x : ℚ)
  | s (str : String)
  deriving DecidableEq, Repr

/-- Errors: the engine taxonomy from `exceptions.py` plus Python builtins
raised by the code, plus `fuelOut` marking a non-terminating model walk. -/
inductive EngErr where
  | transport
  | protocol
  | modelNotFound
  | scanErr
  | keyError
  | valueError
  | assertionError
  | indexError
  | fuelOut
  deriving DecidableEq, Repr

/-! ### `types.py`: sentinels and base-type decoders -/

def INVALID_INT16 : ℕ := 0x8000
def INVALID_UINT16 : ℕ := 0xFFFF
def INVALID_INT32 : ℕ := 0x80000000
def INVALID_UINT32 : ℕ := 0xFFFFFFFF
def INVALID_INT64 : ℕ := 0x8000000000000000
def INVALID_UINT64 : ℕ := 0xFFFFFFFFFFFFFFFF

/-- `DecodeResult`: a value decoded from registers and the register count
it consumed. `value = none` is Python `None` ("absent"). -/
structure DecodeResult where
  value : Option Value
  regs_used : ℕ
  deriving DecidableEq, Repr

/-- `_to_signed(v, bits)`: mask to `bits` bits, then two's-complement. -/
def toSigned (v : ℕ) (bits : ℕ) : ℤ :=
  let m : ℕ := v % 2 ^ bits
  if 2 ^ (bits - 1) ≤ m then (m : ℤ) - 2 ^ bits else (m : ℤ)

/-- `decode_int16`. Accessing `regs[0]` on an empty list is `IndexError`. -/
def decode_int16 (regs : List ℕ) : Except EngErr DecodeResult :=
  match regs with
  | [] => .error .indexError
  | r :: _ =>
    let v := toSigned r 16
    if v = toSigned INVALID_INT16 16 then .ok ⟨none, 1⟩
    else .ok ⟨some (.i v), 1⟩

/-- `decode_uint16`. -/
def decode_uint16 (regs : List ℕ) : Except EngErr DecodeResult :=
  match regs with
  | [] => .error .indexError
  | r :: _ =>
    let v := r &&& 0xFFFF
    if v = INVALID_UINT16 then .ok ⟨none, 1⟩
    else .ok ⟨some (.i v), 1⟩

/-- `decode_enum16` delegates to `decode_uint16`. -/
def decode_enum16 (regs : List ℕ) : Except EngErr DecodeResult :=
  decode_uint16 regs

/-- `decode_bitfield16` delegates to `decode_uint16`. -/
def decode_bitfield16 (regs : List ℕ) : Except EngErr DecodeResult :=
  decode_uint16 regs

/-- `decode_int32`: two registers, big-endian. -/
def decode_int32 (regs : List ℕ) : Except EngErr DecodeResult :=
  match regs with
  | a :: b :: _ =>
    let raw := ((a &&& 0xFFFF) <<< 16) ||| (b &&& 0xFFFF)
    let v := toSigned raw 32
    if v = toSigned INVALID_INT32 32 then .ok ⟨none, 2⟩
    else .ok ⟨some (.i v), 2⟩
  | _ => .error .indexError

/-- `decode_uint32`: two registers, big-endian. -/
def decode_uint32 (regs : List ℕ) : Except EngErr DecodeResult :=
  match regs with
  | a :: b :: _ =>
    let v := ((a &&& 0xFFFF) <<< 16) ||| (b &&& 0xFFFF)
    if v = INVALID_UINT32 then .ok ⟨none, 2⟩
    else .ok ⟨some (.i v), 2⟩
  | _ => .error .indexError

/-- `decode_acc32` delegates to `decode_uint32`. -/
def decode_acc32 (regs : List ℕ) : Except EngErr DecodeResult :=
  decode_uint32 regs

/-- `decode_int64`: four registers, big-endian. -/
def decode_int64 (regs : List ℕ) : Except EngErr DecodeResult :=
  match regs with
  | a :: b :: c :: d :: _ =>
    let raw := ((a &&& 0xFFFF) <<< 48) ||| ((b &&& 0xFFFF) <<< 32) |||
      ((c &&& 0xFFFF) <<< 16) ||| (d &&& 0xFFFF)
    let v := toSigned raw 64
    if v = toSigned INVALID_INT64 64 then .ok ⟨none, 4⟩
    else .ok ⟨some (.i v), 4⟩
  | _ => .error .indexError

/-- `decode_uint64`: four registers, big-endian. -/
def decode_uint64 (regs : List ℕ) : Except EngErr DecodeResult :=
  match regs with
  | a :: b :: c :: d :: _ =>
    let v := ((a &&& 0xFFFF) <<< 48) ||| ((b &&& 0xFFFF) <<< 32) |||
      ((c &&& 0xFFFF) <<< 16) ||| (d &&& 0xFFFF)
    if v = INVALID_UINT64 then .ok ⟨none, 4⟩
    else .ok ⟨some (.i v), 4⟩
  | _ => .error .indexError

/-- `decode_acc64` delegates to `decode_uint64`. -/
def decode_acc64 (regs : List ℕ) : Except EngErr DecodeResult :=
  decode_uint64 regs

/-- `decode_sunssf` delegates to `decode_int16`. -/
def decode_sunssf (regs : List ℕ) : Except EngErr DecodeResult :=
  decode_int16 regs

/-- The two bytes of one register, high byte first
(`(word >> 8) & 0xFF`, `word & 0xFF` after `word = regs[i] & 0xFFFF`). -/
def wordBytes (w : ℕ) : List ℕ :=
  [((w &&& 0xFFFF) >>> 8) &&& 0xFF, (w &&& 0xFFFF) &&& 0xFF]

/-- Python `bytes.decode("ascii", errors="ignore")`: bytes `≥ 0x80` are
dropped, the rest become their ASCII characters. -/
def asciiIgnore (bs : List ℕ) : List Char :=
  (bs.filter (fun b => b < 0x80)).map Char.ofNat

/-- Python `str.rstrip("\x00\x20")` on a character list. -/
def rstripNulSpace (cs : List Char) : List Char :=
  ((cs.reverse.dropWhile (fun c => c = '\x00' ∨ c = ' '))).reverse

/-- `decode_string`: `n_regs = (size_bytes + 1) // 2` registers are read
(`IndexError` when the slice is shorter), their bytes concatenated high
byte first, truncated to `size_bytes`, ASCII-decoded with errors ignored,
and right-trimmed of NUL/space. -/
def decode_string (regs : List ℕ) (size_bytes : ℕ) : Except EngErr DecodeResult :=
  let n_regs := (size_bytes + 1) / 2
  if n_regs ≤ regs.length then
    let bs := (regs.take n_regs).flatMap wordBytes
    let s := rstripNulSpace (asciiIgnore (bs.take size_bytes))
    .ok ⟨some (.s (String.mk s)), n_regs⟩
  else .error .indexError

/-- The `DECODERS` dispatch table keyed by type-tag string. -/
def DECODERS (typ : String) : Option (List ℕ → Except EngErr DecodeResult) :=
  if typ = "int16" then some decode_int16
  else if typ = "uint16" then some decode_uint16
  else if typ = "enum16" then some decode_enum16
  else if typ = "bitfield16" then some decode_bitfield16
  else if typ = "int32" then some decode_int32
  else if typ = "uint32" then some decode_uint32
  else if typ = "acc32" then some decode_acc32
  else if typ = "int64" then some decode_int64
  else if typ = "uint64" then some decode_uint64
  else if typ = "acc64" then some decode_acc64
  else if typ = "sunssf" then some decode_sunssf
  else none

/-- `decode_value(typ, regs, size_bytes)`: strings require a byte size
(`ValueError` otherwise), unknown tags are `ValueError`. -/
def decode_value (typ : String) (regs : List ℕ) (size_bytes : Option ℕ) :
    Except EngErr DecodeResult :=
  if typ = "string" then
    match size_bytes with
    | none => .error .valueError
    | some sb => decode_string regs sb
  else
    match DECODERS typ with
    | none => .error .valueError
    | some d => d regs

/-- Numeric view of a `Value` (`float(raw)` in the source; raw string
values never reach `apply_scale` — the parser filters them out first). -/
def valToQ : Value → ℚ
  | .i z => (z : ℚ)
  | .q x => x
  | .s _ => 0

/-- `apply_scale(raw, sf)`: `None` raw stays `None`, `None` sf leaves raw
unchanged, otherwise `raw * 10^sf` (exact-rational model of the float). -/
def apply_scale (raw : Option Value) (sf : Option ℤ) : Option Value :=
  match raw with
  | none => none
  | some v =>
    match sf with
    | none => some v
    | some e => some (.q (valToQ v * (10 : ℚ) ^ e))

/-- `precision_from_sf(sf) = int(abs(min(sf, 0)))`. -/
def precision_from_sf (sf : Option ℤ) : Option ℕ :=
  match sf with
  | none => none
  | some e => some (min e 0).natAbs

/-! ### `model_registry.py`: schema data model -/

/-- `PointDef` from `model_registry.py`. -/
structure PointDef where
  name : String
  type : String
  size : Option ℕ := none
  sfref : Option String := none
  units : Option String := none
  label : Option String := none
  deriving DecidableEq, Repr

/-- `GroupDef` from `model_registry.py`. -/
structure GroupDef where
  name : String
  points : List PointDef
  repeating : Bool := false
  count_field : Option String := none
  deriving DecidableEq, Repr

/-- `ModelDef` from `model_registry.py`. -/
structure ModelDef where
  id : ℕ
  name : String
  groups : List GroupDef
  deriving DecidableEq, Repr

/-! ### `parser.py`: the register-stream interpreter -/

/-- `PointValue` from `parser.py`. -/
structure PointValue where
  raw : Option Value
  cvalue : Option Value
  units : Option String
  desc : Option String
  precision : Option ℕ
  deriving DecidableEq, Repr

/-- `ModelParseResult`: the points dict is modelled as a lookup function. -/
structure ModelParseResult where
  model_id : ℕ
  model_name : String
  points : String → Option PointValue

/-- Dict insertion (later writes overwrite earlier ones at the same key). -/
def upd {α : Type} (m : String → Option α) (k : String) (v : α) :
    String → Option α :=
  fun k2 => if k2 = k then some v else m k2

/-- The parser's mutable state: cursor `pos`, output dict `points_out`,
scale-factor dict `scale_map`. -/
structure PState where
  pos : ℕ
  out : String → Option PointValue
  scales : String → Option ℤ

/-- Python `int()` truncation toward zero on a rational. -/
def ratTrunc (x : ℚ) : ℤ :=
  if x < 0 then x.ceil else x.floor

/-- One point of one iteration of `parse_group`'s inner loop. -/
def parsePoint (regs : List ℕ) (sfx : String) (p : PointDef) (s : PState) :
    Except EngErr PState :=
  if p.type = "pad" then
    .ok ⟨s.pos + p.size.getD 1, s.out, s.scales⟩
  else
    match decode_value p.type (regs.drop s.pos)
        (if p.type = "string" then some (p.size.getD 0) else none) with
    | .error e => .error e
    | .ok res =>
      let pos2 := s.pos + res.regs_used
      let raw := res.value
      if p.type = "sunssf" then
        match raw with
        | none =>
          .ok ⟨pos2, upd s.out p.name ⟨raw, raw, none, p.label, none⟩, s.scales⟩
        | some (.i z) =>
          .ok ⟨pos2, upd s.out p.name ⟨raw, raw, none, p.label, none⟩,
            upd s.scales p.name z⟩
        | some _ => .error .assertionError
      else
        let sf : Option ℤ :=
          match p.sfref with
          | none => none
          | some r => if r = "" then none else s.scales r
        let rawNum : Option Value :=
          match raw with
          | some (.i z) => some (.i z)
          | some (.q x) => some (.q x)
          | _ => none
        let cval := apply_scale rawNum sf
        let prec := precision_from_sf sf
        let key := p.name ++ sfx
        let cvalue : Option Value :=
          match cval with
          | none => raw
          | some c => some c
        .ok ⟨pos2, upd s.out key ⟨raw, cvalue, p.units, p.label, prec⟩, s.scales⟩

/-- One iteration of `parse_group` over the whole point list. -/
def parsePoints (regs : List ℕ) (sfx : String) :
    List PointDef → PState → Except EngErr PState
  | [], s => .ok s
  | p :: ps, s =>
    match parsePoint regs sfx p s with
    | .error e => .error e
    | .ok s2 => parsePoints regs sfx ps s2

/-- `for _i in range(repeats)`: the point list replayed `n` times. -/
def parseIter (regs : List ℕ) (sfx : String) (pts : List PointDef) :
    ℕ → PState → Except EngErr PState
  | 0, s => .ok s
  | n + 1, s =>
    match parsePoints regs sfx pts s with
    | .error e => .error e
    | .ok s2 => parseIter regs sfx pts n s2

/-- The repeat count of a group: 1 for non-repeating, else looked up in
the output produced so far (`0` when missing or absent). -/
def groupRepeats (g : GroupDef) (s : PState) : Except EngErr ℕ :=
  if g.repeating then
    match g.count_field with
    | none => .error .valueError
    | some cf =>
      match s.out cf with
      | none => .ok 0
      | some pv =>
        match pv.raw with
        | none => .ok 0
        | some (.i z) => .ok z.toNat
        | some (.q x) => .ok (ratTrunc x).toNat
        | some (.s _) => .error .assertionError
  else .ok 1

/-- `parse_group` (the parser's inner function, with its suffix default). -/
def parseGroup (regs : List ℕ) (sfx : String) (g : GroupDef) (s : PState) :
    Except EngErr PState :=
  match groupRepeats g s with
  | .error e => .error e
  | .ok n => parseIter regs sfx g.points n s

/-- All groups in declared order, with the default empty suffix. -/
def parseGroups (regs : List ℕ) :
    List GroupDef → PState → Except EngErr PState
  | [], s => .ok s
  | g :: gs, s =>
    match parseGroup regs "" g s with
    | .error e => .error e
    | .ok s2 => parseGroups regs gs s2

/-- The initial parser state: cursor 0, both dicts empty. -/
def initPState : PState := ⟨0, fun _ => none, fun _ => none⟩

/-- `SunSpecParser.parse`. -/
def parse (model : ModelDef) (regs : List ℕ) :
    Except EngErr ModelParseResult :=
  match parseGroups regs model.groups initPState with
  | .error e => .error e
  | .ok s => .ok ⟨model.id, model.name, s.out⟩

/-! ### `scanner.py`: the discovery engine -/

/-- `MAX_REGS_PER_READ`. -/
def MAX_REGS_PER_READ : ℕ := 125

/-- The injected `ModbusLink`: `read_holding_registers` either returns a
register list or fails (any exception), and the connect/close lifecycle
either succeeds or fails. -/
structure Link where
  read : ℕ → ℕ → Except Unit (List ℕ)
  connectOk : Bool := true
  closeOk : Bool := true

/-- `DiscoveredModel` from `scanner.py`. -/
structure DiscoveredModel where
  model_id : ℕ
  length : ℕ
  data_address : ℕ
  deriving DecidableEq, Repr

/-- `ScanResult` from `scanner.py`. -/
structure ScanResult where
  base_address : ℕ
  models : List DiscoveredModel
  deriving DecidableEq, Repr

/-- The engine's mutable state: the single `_scan` field. -/
structure EngineState where
  scan : Option ScanResult
  deriving DecidableEq, Repr

/-- `AsyncSunSpecClient.connect`: link failures wrap as Transport. -/
def connect (link : Link) : Except EngErr Unit :=
  if link.connectOk then .ok () else .error .transport

/-- `AsyncSunSpecClient.close`: link failures wrap as Transport; the
engine state (`_scan`) is untouched on both paths. -/
def close (link : Link) (st : EngineState) :
    Except EngErr Unit × EngineState :=
  (if link.closeOk then .ok () else .error .transport, st)

/-- The chunking loop of `AsyncSunSpecClient._read`: while registers
remain, request `min(remaining, 125)`, wrap link failures as Transport,
reject short answers as Protocol, append and continue. -/
def readAux (link : Link) (address : ℕ) :
    ℕ → ℕ → List ℕ → Except EngErr (List ℕ)
  | 0, _, acc => .ok acc
  | r + 1, offset, acc =>
    let chunk := min (r + 1) MAX_REGS_PER_READ
    match link.read (address + offset) chunk with
    | .error _ => .error .transport
    | .ok part =>
      if part.length ≠ chunk then .error .protocol
      else readAux link address (r + 1 - chunk) (offset + chunk) (acc ++ part)
  termination_by r _ _ => r
  decreasing_by simp [MAX_REGS_PER_READ]

/-- `AsyncSunSpecClient._read`. -/
def engRead (link : Link) (address count : ℕ) : Except EngErr (List ℕ) :=
  readAux link address count 0 []

/-- High byte then low byte of one register, as appended by
`_decode_string_from_regs` (note: no `& 0xFFFF` word mask here). -/
def scanWordBytes (w : ℕ) : List ℕ :=
  [(w >>> 8) &&& 0xFF, w &&& 0xFF]

/-- `AsyncSunSpecClient._decode_string_from_regs`: bytes high-first,
ASCII-decoded with errors ignored, no trimming. -/
def decodeStringFromRegs (regs : List ℕ) : List Char :=
  asciiIgnore (regs.flatMap scanWordBytes)

/-- The candidate-probing loop of `scan()`: read 2 registers at each
candidate, *catching* `TransportError` and moving on; a candidate whose
text starts with `"SunS"` is the base; exhausting the list is a Scan
error. Non-transport errors (e.g. Protocol) propagate. -/
def scanProbe (link : Link) : List ℕ → Except EngErr ℕ
  | [] => .error .scanErr
  | c :: rest =>
    match engRead link c 2 with
    | .error .transport => scanProbe link rest
    | .error e => .error e
    | .ok regs =>
      if String.mk ((decodeStringFromRegs regs).take 4) = "SunS" then .ok c
      else scanProbe link rest

/-- The model-chain walk of `scan()`: read a 2-register header, stop
without recording on id `0xFFFF`, otherwise record and advance by
`2 + length`. The Python `while True` loop is given explicit fuel;
`fuelOut` marks runs the Python code would not terminate on. -/
def scanWalk (link : Link) : ℕ → ℕ → Except EngErr (List DiscoveredModel)
  | 0, _ => .error .fuelOut
  | fuel + 1, ptr =>
    match engRead link ptr 2 with
    | .error e => .error e
    | .ok hdr =>
      match hdr with
      | a :: b :: _ =>
        let model_id := a &&& 0xFFFF
        let length := b &&& 0xFFFF
        if model_id = 0xFFFF then .ok []
        else
          match scanWalk link fuel (ptr + 2 + length) with
          | .error e => .error e
          | .ok rest => .ok (⟨model_id, length, ptr + 2⟩ :: rest)
      | _ => .error .indexError

/-- `AsyncSunSpecClient.scan`: probe for the signature, walk the chain,
store the result in `_scan` (on error, `_scan` keeps its prior value). -/
def scan (link : Link) (candidates : List ℕ) (fuel : ℕ)
    (st : EngineState) : Except EngErr ScanResult × EngineState :=
  match scanProbe link candidates with
  | .error e => (.error e, st)
  | .ok base =>
    match scanWalk link fuel (base + 2) with
    | .error e => (.error e, st)
    | .ok models => (.ok ⟨base, models⟩, ⟨some ⟨base, models⟩⟩)

/-- `AsyncSunSpecClient.read_model`: `_ensure_scan`, match against the
scan list, chunked read, then registry lookup (a missing definition is
the registry's `KeyError`), then parse. -/
def read_model (link : Link) (registry : ℕ → Option ModelDef)
    (st : EngineState) (model_id : ℕ) : Except EngErr ModelParseResult :=
  match st.scan with
  | none => .error .scanErr
  | some sc =>
    match sc.models.filter (fun m => m.model_id = model_id) with
    | [] => .error .modelNotFound
    | m :: _ =>
      match engRead link m.data_address m.length with
      | .error e => .error e
      | .ok regs =>
        match registry model_id with
        | none => .error .keyError
        | some mdef => parse mdef regs

/-- The loop of `read_all`: models without a schema are skipped silently
(the registry `KeyError` is caught); others are read and parsed. -/
def readAllAux (link : Link) (registry : ℕ → Option ModelDef) :
    List DiscoveredModel → (ℕ → Option ModelParseResult) →
    Except EngErr (ℕ → Option ModelParseResult)
  | [], out => .ok out
  | m :: ms, out =>
    match registry m.model_id with
    | none => readAllAux link registry ms out
    | some mdef =>
      match engRead link m.data_address m.length with
      | .error e => .error e
      | .ok regs =>
        match parse mdef regs with
        | .error e => .error e
        | .ok r =>
          readAllAux link registry ms
            (fun k => if k = m.model_id then some r else out k)

/-- `AsyncSunSpecClient.read_all`. -/
def read_all (link : Link) (registry : ℕ → Option ModelDef)
    (st : EngineState) : Except EngErr (ℕ → Option ModelParseResult) :=
  match st.scan with
  | none => .error .scanErr
  | some sc => readAllAux link registry sc.models (fun _ => none)

/-- A memory-backed link that serves any request of at most 125 registers
from `mem` and rejects larger ones (the Modbus limit the engine must
respect), mirroring the mock link of the test suite. -/
def memLink (mem : ℕ → ℕ) : Link :=
  ⟨fun a c =>
    if c ≤ 125 then .ok ((List.range c).map (fun i => mem (a + i)))
    else .error (), true, true⟩

/-- The default base-candidate list `(0, 40000, 50000)`. -/
def baseCandidatesDefault : List ℕ := [0, 40000, 50000]

/-! ### Specification gadgets used to state the claims -/

/-- A model chain `[(id₀,len₀), …]` laid out in `mem` starting at header
address `ptr`: each header holds the id (≠ `0xFFFF`) and length, data
follows, and the register after the last model's data holds the
terminator id `0xFFFF` (all ids/lengths read modulo `2^16`). -/
def chainLayout (mem : ℕ → ℕ) : ℕ → List (ℕ × ℕ) → Bool
  | ptr, [] => mem ptr % 65536 == 0xFFFF
  | ptr, (idv, len) :: rest =>
    (mem ptr % 65536 == idv) && (idv != 0xFFFF) &&
      (mem (ptr + 1) % 65536 == len) && chainLayout mem (ptr + 2 + len) rest

/-- The `DiscoveredModel` list a chain walk starting at `ptr` should
produce from a chain description. -/
def modelsOfChain : ℕ → List (ℕ × ℕ) → List DiscoveredModel
  | _, [] => []
  | ptr, (idv, len) :: rest =>
    ⟨idv, len, ptr + 2⟩ :: modelsOfChain (ptr + 2 + len) rest

/-- Modelled from the spec: `str.decode("ascii", errors="replace")`-style
best-effort *replacement* of non-ASCII bytes (each byte `≥ 0x80` becomes
U+FFFD), as the spec's string-decoding sentence describes; the source
instead uses `errors="ignore"`. Used only to compare the spec's wording
against `decode_string`. -/
def asciiReplace (bs : List ℕ) : List Char :=
  bs.map (fun b => if b < 0x80 then Char.ofNat b else '�')

/-- Modelled from the spec: `decode_string` as the spec's words describe
it, differing from the source only in using byte replacement rather than
byte removal for non-ASCII bytes. -/
def decode_string_replacement (regs : List ℕ) (size_bytes : ℕ) :
    Except EngErr DecodeResult :=
  let n_regs := (size_bytes + 1) / 2
  if n_regs ≤ regs.length then
    let bs := (regs.take n_regs).flatMap wordBytes
    let s := rstripNulSpace (asciiReplace (bs.take size_bytes))
    .ok ⟨some (.s (String.mk s)), n_regs⟩
  else .error .indexError

/-- Concrete memory for scan scenarios: `"SunS"` at 40000, one model
`(id 1, length 64)`, terminator after its data. -/
def memScenario : ℕ → ℕ := fun a =>
  if a = 40000 then 0x5375 else if a = 40001 then 0x6e53
  else if a = 40002 then 1 else if a = 40003 then 64
  else if a = 40068 then 0xFFFF else 0

/-- A link that fails (raises) on reads at address 0 and otherwise serves
`memScenario`: exercises the candidate-probing path of `scan()`. -/
def failAt0Link : Link :=
  ⟨fun a c => if a = 0 then .error () else (memLink memScenario).read a c,
    true, true⟩

/-- A link whose every read fails. -/
def failLink : Link := ⟨fun _ _ => .error (), true, true⟩

/-- A link whose reads succeed but always return one register too few. -/
def shortLink : Link :=
  ⟨fun _ c => .ok (List.replicate (c - 1) 0), true, true⟩

/-- An engine state whose scan result knows model 7 at address 40004. -/
def stWithModel7 : EngineState := ⟨some ⟨40000, [⟨7, 2, 40004⟩]⟩⟩

/-- A link that serves only the two signature registers at 40000 from
`memScenario` and fails on every other read. -/
def sigOnlyLink : Link :=
  ⟨fun a c =>
    if a = 40000 ∧ c = 2 then (memLink memScenario).read a c
    else .error (), true, true⟩

/-- A link whose transport is down entirely: reads, connect and close
all fail. -/
def downLink : Link := ⟨fun _ _ => .error (), false, false⟩

/-- An empty schema registry (no model definitions loaded). -/
def emptyRegistry : ℕ → Option ModelDef := fun _ => none

/-- A two-point schema: a `sunssf` point `SF` followed by a `uint16`
point `A` that references it. -/
def sfModel : ModelDef :=
  ⟨9, "c", [⟨"g", [⟨"SF", "sunssf", none, none, none, none⟩,
    ⟨"A", "uint16", none, some "SF", none, none⟩], false, none⟩]⟩

/-! ## Arithmetic helper lemmas for register assembly -/

lemma and_ffff (n : ℕ) : n &&& 0xFFFF = n % 65536 := by
  have h := Nat.and_pow_two_sub_one_eq_mod n 16
  norm_num at h
  exact h

lemma or_add (x y k m : ℕ) (hx : x = 2 ^ k * m) (hy : y < 2 ^ k) :
    x ||| y = x + y := by
  subst hx
  exact (Nat.mul_add_lt_is_or hy m).symm

lemma shl_or (a b k : ℕ) (hb : b < 2 ^ k) : (a <<< k) ||| b = a * 2 ^ k + b := by
  rw [Nat.shiftLeft_eq]
  exact or_add _ _ k a (by ring) hb

/-- The 32-bit big-endian register assembly equals `a·2¹⁶ + b`. -/
lemma assemble32 (a b : ℕ) (ha : a < 2 ^ 16) (hb : b < 2 ^ 16) :
    ((a &&& 0xFFFF) <<< 16) ||| (b &&& 0xFFFF) = a * 2 ^ 16 + b := by
  rw [and_ffff, and_ffff, Nat.mod_eq_of_lt (show a < 65536 by omega),
    Nat.mod_eq_of_lt (show b < 65536 by omega), shl_or _ _ _ (by omega)]

/-- The 64-bit big-endian register assembly equals
`a·2⁴⁸ + b·2³² + c·2¹⁶ + d`. -/
lemma assemble64 (a b c d : ℕ) (ha : a < 2 ^ 16) (hb : b < 2 ^ 16)
    (hc : c < 2 ^ 16) (hd : d < 2 ^ 16) :
    ((a &&& 0xFFFF) <<< 48) ||| ((b &&& 0xFFFF) <<< 32) |||
      ((c &&& 0xFFFF) <<< 16) ||| (d &&& 0xFFFF) =
      a * 2 ^ 48 + b * 2 ^ 32 + c * 2 ^ 16 + d := by
  rw [and_ffff, and_ffff, and_ffff, and_ffff,
    Nat.mod_eq_of_lt (show a < 65536 by omega),
    Nat.mod_eq_of_lt (show b < 65536 by omega),
    Nat.mod_eq_of_lt (show c < 65536 by omega),
    Nat.mod_eq_of_lt (show d < 65536 by omega),
    Nat.shiftLeft_eq, Nat.shiftLeft_eq, Nat.shiftLeft_eq]
  rw [or_add (a * 2 ^ 48) (b * 2 ^ 32) 48 a (by ring) (by nlinarith),
    or_add (a * 2 ^ 48 + b * 2 ^ 32) (c * 2 ^ 16) 32 (a * 2 ^ 16 + b)
      (by ring) (by nlinarith),
    or_add (a * 2 ^ 48 + b * 2 ^ 32 + c * 2 ^ 16) d 16
      (a * 2 ^ 32 + b * 2 ^ 16 + c) (by ring) (by omega)]

/-- C1: for every fixed-width numeric type, decoding the reserved
sentinel pattern (int16 `0x8000`, uint16/enum16/bitfield16 `0xFFFF`,
int32 `0x80000000`, uint32/acc32 `0xFFFFFFFF`, int64
`0x8000000000000000`, uint64/acc64 `0xFFFFFFFFFFFFFFFF`) yields an
absent value without an error, and decoding any other in-range pattern
yields the signed (two's-complement, characterised by congruence and
range) or unsigned value assembled big-endian, most-significant register
first, consuming 1, 2 or 4 registers respectively. -/
theorem claim_C1_fixed_width_decoding :
    (∀ rest : List ℕ, decode_int16 (0x8000 :: rest) = .ok ⟨none, 1⟩) ∧
    (∀ (r : ℕ) (rest : List ℕ), r < 2 ^ 16 → r ≠ 0x8000 →
      ∃ v : ℤ, decode_int16 (r :: rest) = .ok ⟨some (.i v), 1⟩ ∧
        v % 2 ^ 16 = (r : ℤ) ∧ -(2 ^ 15) ≤ v ∧ v < 2 ^ 15) ∧
    (∀ rest : List ℕ, decode_uint16 (0xFFFF :: rest) = .ok ⟨none, 1⟩) ∧
    (∀ (r : ℕ) (rest : List ℕ), r < 2 ^ 16 → r ≠ 0xFFFF →
      decode_uint16 (r :: rest) = .ok ⟨some (.i (r : ℤ)), 1⟩) ∧
    (∀ rest : List ℕ, decode_enum16 (0xFFFF :: rest) = .ok ⟨none, 1⟩) ∧
    (∀ (r : ℕ) (rest : List ℕ), r < 2 ^ 16 → r ≠ 0xFFFF →
      decode_enum16 (r :: rest) = .ok ⟨some (.i (r : ℤ)), 1⟩) ∧
    (∀ rest : List ℕ, decode_bitfield16 (0xFFFF :: rest) = .ok ⟨none, 1⟩) ∧
    (∀ (r : ℕ) (rest : List ℕ), r < 2 ^ 16 → r ≠ 0xFFFF →
      decode_bitfield16 (r :: rest) = .ok ⟨some (.i (r : ℤ)), 1⟩) ∧
    (∀ rest : List ℕ, decode_int32 (0x8000 :: 0 :: rest) = .ok ⟨none, 2⟩) ∧
    (∀ (a b : ℕ) (rest : List ℕ), a < 2 ^ 16 → b < 2 ^ 16 →
      a * 2 ^ 16 + b ≠ 0x80000000 →
      ∃ v : ℤ, decode_int32 (a :: b :: rest) = .ok ⟨some (.i v), 2⟩ ∧
        v % 2 ^ 32 = ((a * 2 ^ 16 + b : ℕ) : ℤ) ∧ -(2 ^ 31) ≤ v ∧ v < 2 ^ 31) ∧
    (∀ rest : List ℕ, decode_uint32 (0xFFFF :: 0xFFFF :: rest) = .ok ⟨none, 2⟩) ∧
    (∀ (a b : ℕ) (rest : List ℕ), a < 2 ^ 16 → b < 2 ^ 16 →
      a * 2 ^ 16 + b ≠ 0xFFFFFFFF →
      decode_uint32 (a :: b :: rest) =
        .ok ⟨some (.i ((a * 2 ^ 16 + b : ℕ) : ℤ)), 2⟩) ∧
    (∀ rest : List ℕ, decode_acc32 (0xFFFF :: 0xFFFF :: rest) = .ok ⟨none, 2⟩) ∧
    (∀ (a b : ℕ) (rest : List ℕ), a < 2 ^ 16 → b < 2 ^ 16 →
      a * 2 ^ 16 + b ≠ 0xFFFFFFFF →
      decode_acc32 (a :: b :: rest) =
        .ok ⟨some (.i ((a * 2 ^ 16 + b : ℕ) : ℤ)), 2⟩) ∧
    (∀ rest : List ℕ, decode_int64 (0x8000 :: 0 :: 0 :: 0 :: rest) =
      .ok ⟨none, 4⟩) ∧
    (∀ (a b c d : ℕ) (rest : List ℕ), a < 2 ^ 16 → b < 2 ^ 16 → c < 2 ^ 16 →
      d < 2 ^ 16 → a * 2 ^ 48 + b * 2 ^ 32 + c * 2 ^ 16 + d ≠ 0x8000000000000000 →
      ∃ v : ℤ, decode_int64 (a :: b :: c :: d :: rest) = .ok ⟨some (.i v), 4⟩ ∧
        v % 2 ^ 64 = ((a * 2 ^ 48 + b * 2 ^ 32 + c * 2 ^ 16 + d : ℕ) : ℤ) ∧
        -(2 ^ 63) ≤ v ∧ v < 2 ^ 63) ∧
    (∀ rest : List ℕ, decode_uint64 (0xFFFF :: 0xFFFF :: 0xFFFF :: 0xFFFF :: rest) =
      .ok ⟨none, 4⟩) ∧
    (∀ (a b c d : ℕ) (rest : List ℕ), a < 2 ^ 16 → b < 2 ^ 16 → c < 2 ^ 16 →
      d < 2 ^ 16 → a * 2 ^ 48 + b * 2 ^ 32 + c * 2 ^ 16 + d ≠ 0xFFFFFFFFFFFFFFFF →
      decode_uint64 (a :: b :: c :: d :: rest) =
        .ok ⟨some (.i ((a * 2 ^ 48 + b * 2 ^ 32 + c * 2 ^ 16 + d : ℕ) : ℤ)), 4⟩) ∧
    (∀ rest : List ℕ, decode_acc64 (0xFFFF :: 0xFFFF :: 0xFFFF :: 0xFFFF :: rest) =
      .ok ⟨none, 4⟩) ∧
    (∀ (a b c d : ℕ) (rest : List ℕ), a < 2 ^ 16 → b < 2 ^ 16 → c < 2 ^ 16 →
      d < 2 ^ 16 → a * 2 ^ 48 + b * 2 ^ 32 + c * 2 ^ 16 + d ≠ 0xFFFFFFFFFFFFFFFF →
      decode_acc64 (a :: b :: c :: d :: rest) =
        .ok ⟨some (.i ((a * 2 ^ 48 + b * 2 ^ 32 + c * 2 ^ 16 + d : ℕ) : ℤ)), 4⟩) := by
  have hu16 : ∀ (r : ℕ) (rest : List ℕ), r < 2 ^ 16 → r ≠ 0xFFFF →
      decode_uint16 (r :: rest) = .ok ⟨some (.i (r : ℤ)), 1⟩ := by
    intro r rest h1 h2
    simp only [decode_uint16, and_ffff]
    rw [Nat.mod_eq_of_lt (by omega)]
    rw [if_neg (by simp only [INVALID_UINT16]; exact h2)]
  have hu32 : ∀ (a b : ℕ) (rest : List ℕ), a < 2 ^ 16 → b < 2 ^ 16 →
      a * 2 ^ 16 + b ≠ 0xFFFFFFFF →
      decode_uint32 (a :: b :: rest) =
        .ok ⟨some (.i ((a * 2 ^ 16 + b : ℕ) : ℤ)), 2⟩ := by
    intro a b rest ha hb h2
    simp only [decode_uint32, assemble32 a b ha hb]
    rw [if_neg (by simp only [INVALID_UINT32]; exact h2)]
  have hu64 : ∀ (a b c d : ℕ) (rest : List ℕ), a < 2 ^ 16 → b < 2 ^ 16 →
      c < 2 ^ 16 → d < 2 ^ 16 →
      a * 2 ^ 48 + b * 2 ^ 32 + c * 2 ^ 16 + d ≠ 0xFFFFFFFFFFFFFFFF →
      decode_uint64 (a :: b :: c :: d :: rest) =
        .ok ⟨some (.i ((a * 2 ^ 48 + b * 2 ^ 32 + c * 2 ^ 16 + d : ℕ) : ℤ)), 4⟩ := by
    intro a b c d rest ha hb hc hd h2
    simp only [decode_uint64, assemble64 a b c d ha hb hc hd]
    rw [if_neg (by simp only [INVALID_UINT64]; exact h2)]
  refine ⟨fun rest => rfl, ?_, fun rest => rfl, hu16, fun rest => rfl, hu16,
    fun rest => rfl, hu16, fun rest => rfl, ?_, fun rest => rfl, hu32,
    fun rest => rfl, hu32, fun rest => rfl, ?_, fun rest => rfl, hu64,
    fun rest => rfl, hu64⟩
  · intro r rest h1 h2
    refine ⟨toSigned r 16, ?_, ?_, ?_, ?_⟩
    · simp only [decode_int16]
      rw [if_neg]
      unfold toSigned
      intro hcon
      simp only [INVALID_INT16] at hcon
      rw [Nat.mod_eq_of_lt (by omega)] at hcon
      norm_num at hcon
      split at hcon <;> omega
    all_goals
      unfold toSigned
      rw [Nat.mod_eq_of_lt (by omega)]
      norm_num
      split <;> omega
  · intro a b rest ha hb h2
    refine ⟨toSigned (a * 2 ^ 16 + b) 32, ?_, ?_, ?_, ?_⟩
    · simp only [decode_int32, assemble32 a b ha hb]
      rw [if_neg]
      unfold toSigned
      intro hcon
      simp only [INVALID_INT32] at hcon
      rw [Nat.mod_eq_of_lt (by omega)] at hcon
      norm_num at hcon
      split at hcon <;> omega
    all_goals
      unfold toSigned
      rw [Nat.mod_eq_of_lt (by omega)]
      norm_num
      split <;> omega
  · intro a b c d rest ha hb hc hd h2
    refine ⟨toSigned (a * 2 ^ 48 + b * 2 ^ 32 + c * 2 ^ 16 + d) 64, ?_, ?_, ?_, ?_⟩
    · simp only [decode_int64, assemble64 a b c d ha hb hc hd]
      rw [if_neg]
      unfold toSigned
      intro hcon
      simp only [INVALID_INT64] at hcon
      rw [Nat.mod_eq_of_lt (by nlinarith)] at hcon
      norm_num at hcon
      split at hcon <;> omega
    all_goals
      unfold toSigned
      rw [Nat.mod_eq_of_lt (by nlinarith)]
      norm_num
      split <;> omega

/-- Witness for C1: every hypothesis-bearing conjunct instantiated at a
concrete in-range, non-sentinel register pattern. -/
theorem claim_C1_fixed_width_decoding_witness :
    ((1 : ℕ) < 2 ^ 16 ∧ (1 : ℕ) ≠ 0x8000 ∧
      ∃ v : ℤ, decode_int16 [1] = .ok ⟨some (.i v), 1⟩ ∧
        v % 2 ^ 16 = 1 ∧ -(2 ^ 15) ≤ v ∧ v < 2 ^ 15) ∧
    ((2 : ℕ) < 2 ^ 16 ∧ (2 : ℕ) ≠ 0xFFFF ∧
      decode_uint16 [2] = .ok ⟨some (.i 2), 1⟩) ∧
    (decode_enum16 [3] = .ok ⟨some (.i 3), 1⟩) ∧
    (decode_bitfield16 [5] = .ok ⟨some (.i 5), 1⟩) ∧
    ((1 : ℕ) * 2 ^ 16 + 2 ≠ 0x80000000 ∧
      ∃ v : ℤ, decode_int32 [1, 2] = .ok ⟨some (.i v), 2⟩ ∧
        v % 2 ^ 32 = ((1 * 2 ^ 16 + 2 : ℕ) : ℤ) ∧ -(2 ^ 31) ≤ v ∧ v < 2 ^ 31) ∧
    (decode_uint32 [3, 4] = .ok ⟨some (.i ((3 * 2 ^ 16 + 4 : ℕ) : ℤ)), 2⟩) ∧
    (decode_acc32 [0, 7] = .ok ⟨some (.i ((0 * 2 ^ 16 + 7 : ℕ) : ℤ)), 2⟩) ∧
    (∃ v : ℤ, decode_int64 [0, 0, 0, 9] = .ok ⟨some (.i v), 4⟩ ∧
      v % 2 ^ 64 = ((0 * 2 ^ 48 + 0 * 2 ^ 32 + 0 * 2 ^ 16 + 9 : ℕ) : ℤ) ∧
      -(2 ^ 63) ≤ v ∧ v < 2 ^ 63) ∧
    (decode_uint64 [1, 0, 0, 2] =
      .ok ⟨some (.i ((1 * 2 ^ 48 + 0 * 2 ^ 32 + 0 * 2 ^ 16 + 2 : ℕ) : ℤ)), 4⟩) ∧
    (decode_acc64 [0, 0, 0, 4] =
      .ok ⟨some (.i ((0 * 2 ^ 48 + 0 * 2 ^ 32 + 0 * 2 ^ 16 + 4 : ℕ) : ℤ)), 4⟩) := by
  obtain ⟨s16, v16, su, vu, se, ve, sb, vb, s32, v32, su32, vu32, sa32, va32,
    s64, v64, su64, vu64, sa64, va64⟩ := claim_C1_fixed_width_decoding
  refine ⟨⟨by norm_num, by norm_num, v16 1 [] (by norm_num) (by norm_num)⟩,
    ⟨by norm_num, by norm_num, vu 2 [] (by norm_num) (by norm_num)⟩,
    ve 3 [] (by norm_num) (by norm_num),
    vb 5 [] (by norm_num) (by norm_num),
    ⟨by norm_num, v32 1 2 [] (by norm_num) (by norm_num) (by norm_num)⟩,
    vu32 3 4 [] (by norm_num) (by norm_num) (by norm_num),
    va32 0 7 [] (by norm_num) (by norm_num) (by norm_num),
    v64 0 0 0 9 [] (by norm_num) (by norm_num) (by norm_num) (by norm_num)
      (by norm_num),
    vu64 1 0 0 2 [] (by norm_num) (by norm_num) (by norm_num) (by norm_num)
      (by norm_num),
    va64 0 0 0 4 [] (by norm_num) (by norm_num) (by norm_num) (by norm_num)
      (by norm_num)⟩

/-- C9: `close()` leaves the engine's stored scan result unchanged in
every state, so `read_model`/`read_all` after `close()` observe exactly
the prior scan result. -/
theorem claim_C9_close_preserves_scan :
    ∀ (link : Link) (st : EngineState),
      ((close link st).2.scan = st.scan) ∧
      (∀ (link2 : Link) (registry : ℕ → Option ModelDef) (mid : ℕ),
        read_model link2 registry (close link st).2 mid =
          read_model link2 registry st mid) ∧
      (∀ (link2 : Link) (registry : ℕ → Option ModelDef),
        read_all link2 registry (close link st).2 =
          read_all link2 registry st) :=
  fun _ _ => ⟨rfl, fun _ _ _ => rfl, fun _ _ => rfl⟩

/-- Counterexample to C7 as stated: parsing a `sunssf` of `-1` followed
by an absent (`0xFFFF`) `uint16` that references it produces raw =
absent but precision = 1, not none as the claim requires. -/
theorem claim_C7_counterexample :
    (parse sfModel [0xFFFF, 0xFFFF]).map
      (fun r => (r.points "A").map (fun pv => (pv.raw, pv.precision))) =
      .ok (some (none, some 1)) ∧ (some 1 : Option ℕ) ≠ none := by
  constructor
  · rfl
  · decide

/-- C7 (amended): `apply_scale`/`precision_from_sf` behave as claimed,
and for a numeric point with a scale-factor reference the parser emits
`cvalue = raw * 10^sf` and `precision = max(0, -sf)` when the reference
resolves — the precision being computed from `sf` alone, hence still
`max(0, -sf)` (not none) when the raw value is absent; with an
unresolvable or missing reference, `cvalue = raw` and precision none. -/
theorem claim_C7_scale_and_precision :
    (∀ (z e : ℤ), apply_scale (some (.i z)) (some e) =
      some (.q ((z : ℚ) * 10 ^ e))) ∧
    (∀ v : Value, apply_scale (some v) none = some v) ∧
    (∀ sf : Option ℤ, apply_scale none sf = none) ∧
    (∀ e : ℤ, precision_from_sf (some e) = some (max 0 (-e)).toNat) ∧
    (precision_from_sf none = none) ∧
    (∀ (regs : List ℕ) (sfx : String) (p : PointDef) (s : PState)
      (res : DecodeResult) (rf : String) (e z : ℤ),
      p.type ≠ "pad" → p.type ≠ "sunssf" →
      decode_value p.type (regs.drop s.pos)
        (if p.type = "string" then some (p.size.getD 0) else none) = .ok res →
      p.sfref = some rf → rf ≠ "" → s.scales rf = some e →
      res.value = some (.i z) →
      parsePoint regs sfx p s = .ok ⟨s.pos + res.regs_used,
        upd s.out (p.name ++ sfx)
          ⟨some (.i z), some (.q ((z : ℚ) * 10 ^ e)), p.units, p.label,
            some (max 0 (-e)).toNat⟩, s.scales⟩) ∧
    (∀ (regs : List ℕ) (sfx : String) (p : PointDef) (s : PState)
      (res : DecodeResult) (rf : String) (e : ℤ),
      p.type ≠ "pad" → p.type ≠ "sunssf" →
      decode_value p.type (regs.drop s.pos)
        (if p.type = "string" then some (p.size.getD 0) else none) = .ok res →
      p.sfref = some rf → rf ≠ "" → s.scales rf = some e →
      res.value = none →
      parsePoint regs sfx p s = .ok ⟨s.pos + res.regs_used,
        upd s.out (p.name ++ sfx)
          ⟨none, none, p.units, p.label, some (max 0 (-e)).toNat⟩,
        s.scales⟩) ∧
    (∀ (regs : List ℕ) (sfx : String) (p : PointDef) (s : PState)
      (res : DecodeResult) (rf : String),
      p.type ≠ "pad" → p.type ≠ "sunssf" →
      decode_value p.type (regs.drop s.pos)
        (if p.type = "string" then some (p.size.getD 0) else none) = .ok res →
      p.sfref = some rf → rf ≠ "" → s.scales rf = none →
      parsePoint regs sfx p s = .ok ⟨s.pos + res.regs_used,
        upd s.out (p.name ++ sfx)
          ⟨res.value, res.value, p.units, p.label, none⟩, s.scales⟩) ∧
    (∀ (regs : List ℕ) (sfx : String) (p : PointDef) (s : PState)
      (res : DecodeResult),
      p.type ≠ "pad" → p.type ≠ "sunssf" →
      decode_value p.type (regs.drop s.pos)
        (if p.type = "string" then some (p.size.getD 0) else none) = .ok res →
      p.sfref = none →
      parsePoint regs sfx p s = .ok ⟨s.pos + res.regs_used,
        upd s.out (p.name ++ sfx)
          ⟨res.value, res.value, p.units, p.label, none⟩, s.scales⟩) := by
  refine ⟨fun z e => rfl, fun v => rfl, fun sf => rfl, ?_, rfl, ?_, ?_, ?_, ?_⟩
  · intro e
    simp only [precision_from_sf]
    congr 1
    omega
  · intro regs sfx p s res rf e z hpad hsf hdec hrf hne hres hraw
    have hp : (min e 0).natAbs = (max 0 (-e)).toNat := by omega
    simp only [parsePoint, if_neg hpad, hdec, if_neg hsf, hrf, if_neg hne,
      hres, hraw, apply_scale, valToQ, precision_from_sf, hp]
  · intro regs sfx p s res rf e hpad hsf hdec hrf hne hres hraw
    have hp : (min e 0).natAbs = (max 0 (-e)).toNat := by omega
    simp only [parsePoint, if_neg hpad, hdec, if_neg hsf, hrf, if_neg hne,
      hres, hraw, apply_scale, valToQ, precision_from_sf, hp]
  · intro regs sfx p s res rf hpad hsf hdec hrf hne hres
    obtain ⟨val, used⟩ := res
    rcases val with _ | v
    · simp only [parsePoint, if_neg hpad, hdec, if_neg hsf, hrf, if_neg hne,
        hres, apply_scale, precision_from_sf]
    · rcases v with z | x | str <;>
        simp only [parsePoint, if_neg hpad, hdec, if_neg hsf, hrf,
          if_neg hne, hres, apply_scale, precision_from_sf]
  · intro regs sfx p s res hpad hsf hdec hrf
    obtain ⟨val, used⟩ := res
    rcases val with _ | v
    · simp only [parsePoint, if_neg hpad, hdec, if_neg hsf, hrf,
        apply_scale, precision_from_sf]
    · rcases v with z | x | str <;>
        simp only [parsePoint, if_neg hpad, hdec, if_neg hsf, hrf,
          apply_scale, precision_from_sf]

/-- Witness for C7 (amended): each parser-level conjunct applied to a
concrete point and state. -/
theorem claim_C7_scale_and_precision_witness :
    (parsePoint [200] "" ⟨"A", "uint16", none, some "SF", none, none⟩
      ⟨0, fun _ => none, fun k => if k = "SF" then some (-1) else none⟩ =
      .ok ⟨1, upd (fun _ => none) "A"
        ⟨some (.i 200), some (.q ((200 : ℚ) * 10 ^ (-1 : ℤ))), none, none,
          some 1⟩, fun k => if k = "SF" then some (-1) else none⟩) ∧
    (parsePoint [0xFFFF] "" ⟨"A", "uint16", none, some "SF", none, none⟩
      ⟨0, fun _ => none, fun k => if k = "SF" then some (-1) else none⟩ =
      .ok ⟨1, upd (fun _ => none) "A"
        ⟨none, none, none, none, some 1⟩,
        fun k => if k = "SF" then some (-1) else none⟩) ∧
    (parsePoint [200] "" ⟨"A", "uint16", none, some "SF", none, none⟩
      ⟨0, fun _ => none, fun _ => none⟩ =
      .ok ⟨1, upd (fun _ => none) "A"
        ⟨some (.i 200), some (.i 200), none, none, none⟩, fun _ => none⟩) ∧
    (parsePoint [200] "" ⟨"A", "uint16", none, none, none, none⟩
      ⟨0, fun _ => none, fun _ => none⟩ =
      .ok ⟨1, upd (fun _ => none) "A"
        ⟨some (.i 200), some (.i 200), none, none, none⟩, fun _ => none⟩) := by
  obtain ⟨a1, a2, a3, a4, a5, a6, a7, a8, a9⟩ := claim_C7_scale_and_precision
  refine ⟨?_, ?_, ?_, ?_⟩
  · have h := a6 [200] "" ⟨"A", "uint16", none, some "SF", none, none⟩
      ⟨0, fun _ => none, fun k => if k = "SF" then some (-1) else none⟩
      ⟨some (.i 200), 1⟩ "SF" (-1) 200 (by decide) (by decide) rfl rfl
      (by decide) rfl rfl
    simpa using h
  · have h := a7 [0xFFFF] "" ⟨"A", "uint16", none, some "SF", none, none⟩
      ⟨0, fun _ => none, fun k => if k = "SF" then some (-1) else none⟩
      ⟨none, 1⟩ "SF" (-1) (by decide) (by decide) rfl rfl
      (by decide) rfl rfl
    simpa using h
  · have h := a8 [200] "" ⟨"A", "uint16", none, some "SF", none, none⟩
      ⟨0, fun _ => none, fun _ => none⟩
      ⟨some (.i 200), 1⟩ "SF" (by decide) (by decide) rfl rfl
      (by decide) rfl
    simpa using h
  · have h := a9 [200] "" ⟨"A", "uint16", none, none, none, none⟩
      ⟨0, fun _ => none, fun _ => none⟩
      ⟨some (.i 200), 1⟩ (by decide) (by decide) rfl rfl
    simpa using h

/-- C6: a repeating group looks its `count_field` up among the points
already decoded in the same parse; a missing or absent count skips the
group entirely (state unchanged, no error); a present count `z ≥ 0`
replays the point sequence `z` times; and replaying `n+1` times equals
replaying `n` times followed by one final pass over the point list, so
the final map holds the last iteration's values for the group's keys. -/
theorem claim_C6_repeating_group :
    (∀ (regs : List ℕ) (sfx : String) (g : GroupDef) (s : PState)
      (cf : String), g.repeating = true → g.count_field = some cf →
      s.out cf = none → parseGroup regs sfx g s = .ok s) ∧
    (∀ (regs : List ℕ) (sfx : String) (g : GroupDef) (s : PState)
      (cf : String) (pv : PointValue), g.repeating = true →
      g.count_field = some cf → s.out cf = some pv → pv.raw = none →
      parseGroup regs sfx g s = .ok s) ∧
    (∀ (regs : List ℕ) (sfx : String) (g : GroupDef) (s : PState)
      (cf : String) (pv : PointValue) (z : ℤ), g.repeating = true →
      g.count_field = some cf → s.out cf = some pv → pv.raw = some (.i z) →
      0 ≤ z →
      parseGroup regs sfx g s = parseIter regs sfx g.points z.toNat s) ∧
    (∀ (regs : List ℕ) (sfx : String) (pts : List PointDef) (n : ℕ)
      (s : PState),
      parseIter regs sfx pts (n + 1) s =
        (parseIter regs sfx pts n s).bind (parsePoints regs sfx pts)) := by
  refine ⟨?_, ?_, ?_, ?_⟩
  · intro regs sfx g s cf hrep hcf hout
    simp only [parseGroup, groupRepeats, hrep, hcf, hout, if_true, parseIter]
  · intro regs sfx g s cf pv hrep hcf hout hraw
    simp only [parseGroup, groupRepeats, hrep, hcf, hout, hraw, if_true,
      parseIter]
  · intro regs sfx g s cf pv z hrep hcf hout hraw hz
    simp only [parseGroup, groupRepeats, hrep, hcf, hout, hraw, if_true]
  · intro regs sfx pts n
    induction n with
    | zero =>
      intro s
      cases hpp : parsePoints regs sfx pts s with
      | error e => simp only [parseIter, hpp, Except.bind]
      | ok s2 => simp only [parseIter, hpp, Except.bind]
    | succ m ih =>
      intro s
      have lhs : parseIter regs sfx pts (m + 1 + 1) s =
          (match parsePoints regs sfx pts s with
            | Except.error e => Except.error e
            | Except.ok s2 => parseIter regs sfx pts (m + 1) s2) := rfl
      have rhs : parseIter regs sfx pts (m + 1) s =
          (match parsePoints regs sfx pts s with
            | Except.error e => Except.error e
            | Except.ok s2 => parseIter regs sfx pts m s2) := rfl
      rw [lhs, rhs]
      cases hpp : parsePoints regs sfx pts s with
      | error e => rfl
      | ok s2 =>
        show parseIter regs sfx pts (m + 1) s2 =
          (parseIter regs sfx pts m s2).bind (parsePoints regs sfx pts)
        exact ih s2

/-- Witness for C6: the skip cases and the replay case at a concrete
repeating group and state. -/
theorem claim_C6_repeating_group_witness :
    (parseGroup [7, 8] ""
      ⟨"mppt", [⟨"DCA", "uint16", none, none, none, none⟩], true, some "N"⟩
      ⟨0, fun _ => none, fun _ => none⟩ =
      .ok ⟨0, fun _ => none, fun _ => none⟩) ∧
    (parseGroup [7, 8] ""
      ⟨"mppt", [⟨"DCA", "uint16", none, none, none, none⟩], true, some "N"⟩
      ⟨0, upd (fun _ => none) "N" ⟨none, none, none, none, none⟩,
        fun _ => none⟩ =
      .ok ⟨0, upd (fun _ => none) "N" ⟨none, none, none, none, none⟩,
        fun _ => none⟩) ∧
    (parseGroup [7, 8] ""
      ⟨"mppt", [⟨"DCA", "uint16", none, none, none, none⟩], true, some "N"⟩
      ⟨0, upd (fun _ => none) "N"
        ⟨some (.i 2), some (.i 2), none, none, none⟩, fun _ => none⟩ =
      parseIter [7, 8] "" [⟨"DCA", "uint16", none, none, none, none⟩] 2
        ⟨0, upd (fun _ => none) "N"
          ⟨some (.i 2), some (.i 2), none, none, none⟩, fun _ => none⟩) := by
  obtain ⟨c1, c2, c3, c4⟩ := claim_C6_repeating_group
  refine ⟨?_, ?_, ?_⟩
  · exact c1 [7, 8] ""
      ⟨"mppt", [⟨"DCA", "uint16", none, none, none, none⟩], true, some "N"⟩
      ⟨0, fun _ => none, fun _ => none⟩ "N" rfl rfl rfl
  · exact c2 [7, 8] ""
      ⟨"mppt", [⟨"DCA", "uint16", none, none, none, none⟩], true, some "N"⟩
      ⟨0, upd (fun _ => none) "N" ⟨none, none, none, none, none⟩,
        fun _ => none⟩ "N" ⟨none, none, none, none, none⟩ rfl rfl rfl rfl
  · exact c3 [7, 8] ""
      ⟨"mppt", [⟨"DCA", "uint16", none, none, none, none⟩], true, some "N"⟩
      ⟨0, upd (fun _ => none) "N"
        ⟨some (.i 2), some (.i 2), none, none, none⟩, fun _ => none⟩ "N"
      ⟨some (.i 2), some (.i 2), none, none, none⟩ 2 rfl rfl rfl rfl
      (by norm_num)

/-! ## Chunked-read lemmas -/

lemma memLink_read (mem : ℕ → ℕ) (a c : ℕ) :
    (memLink mem).read a c =
      (if c ≤ 125 then .ok ((List.range c).map (fun i => mem (a + i)))
        else .error ()) := rfl

/-- `readAux` against a memory-backed 125-bounded link yields the whole
address-ordered slice appended to the accumulator. -/
lemma readAux_memLink (mem : ℕ → ℕ) (addr : ℕ) :
    ∀ (rem off : ℕ) (acc : List ℕ),
      readAux (memLink mem) addr rem off acc =
        .ok (acc ++ (List.range rem).map (fun i => mem (addr + off + i))) := by
  intro rem
  induction rem using Nat.strong_induction_on with
  | _ rem ih =>
    intro off acc
    match rem with
    | 0 => simp [readAux]
    | r + 1 =>
      rw [readAux]
      simp only [MAX_REGS_PER_READ, memLink_read]
      rw [if_pos (by omega)]
      simp only [List.length_map, List.length_range]
      rw [if_neg (by omega)]
      rw [ih (r + 1 - min (r + 1) 125) (by omega) (off + min (r + 1) 125)]
      congr 1
      have hsplit : r + 1 = min (r + 1) 125 + (r + 1 - min (r + 1) 125) := by
        omega
      conv_rhs => rw [hsplit]
      rw [List.range_add, List.map_append, ← List.append_assoc, List.map_map]
      congr 1
      apply List.map_congr_left
      intro i hi
      simp only [Function.comp]
      congr 1
      omega

lemma engRead_memLink (mem : ℕ → ℕ) (addr count : ℕ) :
    engRead (memLink mem) addr count =
      .ok ((List.range count).map (fun i => mem (addr + i))) := by
  rw [engRead, readAux_memLink]
  simp

/-- If chunks `0..k-1` answer in full and the link fails on chunk `k`,
the chunking loop surfaces a Transport error. -/
lemma readAux_transport (link : Link) (addr : ℕ) :
    ∀ (k rem off : ℕ) (acc : List ℕ),
      125 * k < rem →
      (∀ i, i < k → ∃ l, link.read (addr + off + 125 * i) 125 = .ok l ∧
        l.length = 125) →
      link.read (addr + off + 125 * k) (min (rem - 125 * k) 125) = .error () →
      readAux link addr rem off acc = .error .transport := by
  intro k
  induction k with
  | zero =>
    intro rem off acc hlt hfull herr
    match rem, hlt with
    | r + 1, _ =>
      rw [readAux]
      simp only [MAX_REGS_PER_READ]
      simp only [Nat.mul_zero, Nat.add_zero, Nat.sub_zero] at herr
      rw [herr]
  | succ k ih =>
    intro rem off acc hlt hfull herr
    match rem, hlt with
    | r + 1, _ =>
      obtain ⟨l, hl, hlen⟩ := hfull 0 (by omega)
      simp only [Nat.mul_zero, Nat.add_zero] at hl
      have hmin : min (r + 1) 125 = 125 := by omega
      rw [readAux]
      simp only [MAX_REGS_PER_READ, hmin, hl]
      rw [if_neg (show ¬ (l.length ≠ 125) by omega)]
      refine ih (r + 1 - 125) (off + 125) (acc ++ l) (by omega) ?_ ?_
      · intro i hi
        obtain ⟨l2, hl2, hlen2⟩ := hfull (i + 1) (by omega)
        refine ⟨l2, ?_, hlen2⟩
        have he : addr + (off + 125) + 125 * i = addr + off + 125 * (i + 1) := by
          ring
        rw [he, hl2]
      · have h1 : addr + (off + 125) + 125 * k = addr + off + 125 * (k + 1) := by
          ring
        have h2 : r + 1 - 125 - 125 * k = r + 1 - 125 * (k + 1) := by omega
        rw [h1, h2, herr]

/-- If chunks `0..k-1` answer in full and chunk `k` answers short, the
chunking loop surfaces a Protocol error. -/
lemma readAux_protocol (link : Link) (addr : ℕ) :
    ∀ (k rem off : ℕ) (acc : List ℕ),
      125 * k < rem →
      (∀ i, i < k → ∃ l, link.read (addr + off + 125 * i) 125 = .ok l ∧
        l.length = 125) →
      (∃ l, link.read (addr + off + 125 * k) (min (rem - 125 * k) 125) =
        .ok l ∧ l.length < min (rem - 125 * k) 125) →
      readAux link addr rem off acc = .error .protocol := by
  intro k
  induction k with
  | zero =>
    intro rem off acc hlt hfull herr
    match rem, hlt with
    | r + 1, _ =>
      obtain ⟨l, hl, hlen⟩ := herr
      simp only [Nat.mul_zero, Nat.add_zero, Nat.sub_zero] at hl hlen
      rw [readAux]
      simp only [MAX_REGS_PER_READ, hl]
      rw [if_pos (show l.length ≠ min (r + 1) 125 by omega)]
  | succ k ih =>
    intro rem off acc hlt hfull herr
    match rem, hlt with
    | r + 1, _ =>
      obtain ⟨l, hl, hlen⟩ := hfull 0 (by omega)
      simp only [Nat.mul_zero, Nat.add_zero] at hl
      have hmin : min (r + 1) 125 = 125 := by omega
      rw [readAux]
      simp only [MAX_REGS_PER_READ, hmin, hl]
      rw [if_neg (show ¬ (l.length ≠ 125) by omega)]
      refine ih (r + 1 - 125) (off + 125) (acc ++ l) (by omega) ?_ ?_
      · intro i hi
        obtain ⟨l2, hl2, hlen2⟩ := hfull (i + 1) (by omega)
        refine ⟨l2, ?_, hlen2⟩
        have he : addr + (off + 125) + 125 * i = addr + off + 125 * (i + 1) := by
          ring
        rw [he, hl2]
      · obtain ⟨l2, hl2, hlen2⟩ := herr
        have h1 : addr + (off + 125) + 125 * k = addr + off + 125 * (k + 1) := by
          ring
        have h2 : r + 1 - 125 - 125 * k = r + 1 - 125 * (k + 1) := by omega
        rw [h1, h2]
        exact ⟨l2, hl2, hlen2⟩

/-- C5: a read of N registers splits into physical reads of at most 125
registers (a memory link that rejects larger requests still serves the
whole read), issued in address order and concatenated in order; and if
any individual physical read answers with fewer registers than
requested, the operation fails with a Protocol error — the error result
carries no partial register data. -/
theorem claim_C5_chunked_reads :
    (∀ (mem : ℕ → ℕ) (addr count : ℕ),
      engRead (memLink mem) addr count =
        .ok ((List.range count).map (fun i => mem (addr + i)))) ∧
    (∀ (link : Link) (addr count k : ℕ),
      125 * k < count →
      (∀ i, i < k → ∃ l, link.read (addr + 125 * i) 125 = .ok l ∧
        l.length = 125) →
      (∃ l, link.read (addr + 125 * k) (min (count - 125 * k) 125) = .ok l ∧
        l.length < min (count - 125 * k) 125) →
      engRead link addr count = .error .protocol) := by
  constructor
  · exact engRead_memLink
  · intro link addr count k hlt hfull herr
    rw [engRead]
    refine readAux_protocol link addr k count 0 [] hlt ?_ ?_
    · intro i hi
      simpa using hfull i hi
    · simpa using herr

/-- Witness for C5: the short-answering link makes a 10-register read
fail with Protocol at the very first chunk. -/
theorem claim_C5_chunked_reads_witness :
    (125 * 0 < 10 ∧
      (∃ l, shortLink.read (100 + 125 * 0) (min (10 - 125 * 0) 125) = .ok l ∧
        l.length < min (10 - 125 * 0) 125)) ∧
    engRead shortLink 100 10 = .error .protocol := by
  refine ⟨⟨by norm_num, ⟨List.replicate 9 0, rfl, by norm_num⟩⟩, ?_⟩
  exact claim_C5_chunked_reads.2 shortLink 100 10 0 (by norm_num)
    (fun i hi => absurd hi (by omega))
    ⟨List.replicate 9 0, rfl, by norm_num⟩

/-- Counterexample to C2 as stated: the link raises on the read at base
candidate 0, yet `scan()` catches that transport failure, moves on to
candidate 40000 and completes successfully — so a transport failure
during an engine operation did not propagate or terminate it. -/
theorem claim_C2_counterexample :
    failAt0Link.read 0 2 = .error () ∧
    (scan failAt0Link baseCandidatesDefault 10 ⟨none⟩).1 =
      .ok ⟨40000, [⟨1, 64, 40004⟩]⟩ := by
  have h0 : engRead failAt0Link 0 2 = .error .transport := by
    simp [engRead, readAux, MAX_REGS_PER_READ, failAt0Link]
  have h1 : engRead failAt0Link 40000 2 = .ok [0x5375, 0x6e53] := by
    simp [engRead, readAux, MAX_REGS_PER_READ, failAt0Link, memLink_read,
      memScenario, List.range_succ]
  have h2 : engRead failAt0Link 40002 2 = .ok [1, 64] := by
    simp [engRead, readAux, MAX_REGS_PER_READ, failAt0Link, memLink_read,
      memScenario, List.range_succ]
  have h3 : engRead failAt0Link 40068 2 = .ok [0xFFFF, 0] := by
    simp [engRead, readAux, MAX_REGS_PER_READ, failAt0Link, memLink_read,
      memScenario, List.range_succ]
  have hprobe : scanProbe failAt0Link baseCandidatesDefault = .ok 40000 := by
    rw [baseCandidatesDefault, scanProbe, h0, scanProbe, h1]
    rfl
  have hw9 : scanWalk failAt0Link 9 40068 = .ok [] := by
    rw [show (9 : ℕ) = 8 + 1 from rfl, scanWalk, h3]
    rfl
  have hwalk : scanWalk failAt0Link 10 40002 = .ok [⟨1, 64, 40004⟩] := by
    rw [show (10 : ℕ) = 9 + 1 from rfl, scanWalk, h2]
    simp only [show ((1 : ℕ) &&& 65535) = 1 from rfl,
      show ((64 : ℕ) &&& 65535) = 64 from rfl]
    norm_num
    rw [hw9]
  refine ⟨rfl, ?_⟩
  simp only [scan, hprobe]
  simp [hwalk]

/-- C2 (amended): every transport failure surfaces immediately as a
Transport error and terminates the current operation — in the chunked
read, in the model-chain walk, in `read_model`, in `connect`/`close` —
with one exception: during `scan()`'s signature search, a transport
failure while probing one base candidate is caught and the next
candidate is tried. -/
theorem claim_C2_transport_propagation :
    (∀ (link : Link) (c : ℕ) (rest : List ℕ), link.read c 2 = .error () →
      scanProbe link (c :: rest) = scanProbe link rest) ∧
    (∀ (link : Link) (addr count k : ℕ),
      125 * k < count →
      (∀ i, i < k → ∃ l, link.read (addr + 125 * i) 125 = .ok l ∧
        l.length = 125) →
      link.read (addr + 125 * k) (min (count - 125 * k) 125) = .error () →
      engRead link addr count = .error .transport) ∧
    (∀ (link : Link) (registry : ℕ → Option ModelDef) (st : EngineState)
      (mid : ℕ) (sc : ScanResult) (m : DiscoveredModel)
      (ms : List DiscoveredModel),
      st.scan = some sc →
      sc.models.filter (fun x => x.model_id = mid) = m :: ms →
      engRead link m.data_address m.length = .error .transport →
      read_model link registry st mid = .error .transport) ∧
    (∀ (link : Link) (fuel ptr : ℕ),
      engRead link ptr 2 = .error .transport →
      scanWalk link (fuel + 1) ptr = .error .transport) ∧
    (∀ (link : Link) (cands : List ℕ) (fuel : ℕ) (st : EngineState)
      (base : ℕ),
      scanProbe link cands = .ok base →
      scanWalk link fuel (base + 2) = .error .transport →
      scan link cands fuel st = (.error .transport, st)) ∧
    (∀ link : Link, link.connectOk = false →
      connect link = .error .transport) ∧
    (∀ (link : Link) (st : EngineState), link.closeOk = false →
      close link st = (.error .transport, st)) := by
  refine ⟨?_, ?_, ?_, ?_, ?_, ?_, ?_⟩
  · intro link c rest h
    have h2 : engRead link c 2 = .error .transport := by
      rw [engRead, readAux]
      simp only [MAX_REGS_PER_READ]
      norm_num
      rw [h]
    rw [scanProbe, h2]
  · intro link addr count k hlt hfull herr
    rw [engRead]
    refine readAux_transport link addr k count 0 [] hlt ?_ ?_
    · intro i hi
      simpa using hfull i hi
    · simpa using herr
  · intro link registry st mid sc m ms hscan hfilter herr
    simp only [read_model, hscan, hfilter, herr]
  · intro link fuel ptr herr
    rw [scanWalk, herr]
  · intro link cands fuel st base hprobe hwalk
    simp only [scan, hprobe, hwalk]
  · intro link h
    simp [connect, h]
  · intro link st h
    simp [close, h]

/-- Witness for C2 (amended): each conjunct at a concrete link — the
probing catch with a link failing at address 0, and transport
propagation through `engRead`, `read_model`, the chain walk, `scan`,
`connect` and `close` with failing links. -/
theorem claim_C2_transport_propagation_witness :
    (failAt0Link.read 0 2 = .error () ∧
      scanProbe failAt0Link (0 :: [40000, 50000]) =
        scanProbe failAt0Link [40000, 50000]) ∧
    (engRead failLink 5 10 = .error .transport) ∧
    (read_model failLink emptyRegistry stWithModel7 7 = .error .transport) ∧
    (scanWalk failLink 1 40002 = .error .transport) ∧
    (scan sigOnlyLink [40000] 1 ⟨none⟩ = (.error .transport, ⟨none⟩)) ∧
    (connect downLink = .error .transport) ∧
    (close downLink ⟨none⟩ = (.error .transport, ⟨none⟩)) := by
  obtain ⟨ca, cb, cc, cd, ce, cf, cg⟩ := claim_C2_transport_propagation
  refine ⟨⟨rfl, ca failAt0Link 0 [40000, 50000] rfl⟩, ?_, ?_, ?_, ?_, ?_, ?_⟩
  · exact cb failLink 5 10 0 (by norm_num)
      (fun i hi => absurd hi (by omega)) rfl
  · refine cc failLink emptyRegistry stWithModel7 7 ⟨40000, [⟨7, 2, 40004⟩]⟩
      ⟨7, 2, 40004⟩ [] rfl (by rfl) ?_
    exact cb failLink 40004 2 0 (by norm_num)
      (fun i hi => absurd hi (by omega)) rfl
  · have h := cd failLink 0 40002 (cb failLink 40002 2 0 (by norm_num)
      (fun i hi => absurd hi (by omega)) rfl)
    simpa using h
  · refine ce sigOnlyLink [40000] 1 ⟨none⟩ 40000 ?_ ?_
    · have h1 : engRead sigOnlyLink 40000 2 = .ok [0x5375, 0x6e53] := by
        simp [engRead, readAux, MAX_REGS_PER_READ, sigOnlyLink, memLink_read,
          memScenario, List.range_succ]
      rw [scanProbe, h1]
      rfl
    · have h2 : engRead sigOnlyLink 40002 2 = .error .transport := by
        simp [engRead, readAux, MAX_REGS_PER_READ, sigOnlyLink]
      rw [show (40000 : ℕ) + 2 = 40002 from rfl,
        show (1 : ℕ) = 0 + 1 from rfl, scanWalk, h2]
  · exact cf downLink rfl
  · exact cg downLink ⟨none⟩ rfl

/-- The model-chain walk over a memory whose chain layout is described
by `chain` produces exactly the corresponding `DiscoveredModel` list. -/
lemma scanWalk_chain (mem : ℕ → ℕ) :
    ∀ (chain : List (ℕ × ℕ)) (ptr fuel : ℕ),
      chainLayout mem ptr chain = true →
      chain.length < fuel →
      scanWalk (memLink mem) fuel ptr = .ok (modelsOfChain ptr chain) := by
  intro chain
  induction chain with
  | nil =>
    intro ptr fuel hlay hfuel
    obtain ⟨f, rfl⟩ : ∃ f, fuel = f + 1 := ⟨fuel - 1, by omega⟩
    simp only [chainLayout, beq_iff_eq] at hlay
    have hread : engRead (memLink mem) ptr 2 = .ok [mem ptr, mem (ptr + 1)] := by
      rw [engRead_memLink]
      simp [List.range_succ]
    rw [scanWalk, hread]
    simp only [and_ffff, hlay, modelsOfChain]
    rfl
  | cons hd tl ih =>
    intro ptr fuel hlay hfuel
    obtain ⟨f, rfl⟩ : ∃ f, fuel = f + 1 := ⟨fuel - 1, by omega⟩
    obtain ⟨idv, len⟩ := hd
    simp only [chainLayout, Bool.and_eq_true, beq_iff_eq, bne_iff_ne] at hlay
    obtain ⟨⟨⟨hid, hne⟩, hlen⟩, hrest⟩ := hlay
    have hread : engRead (memLink mem) ptr 2 = .ok [mem ptr, mem (ptr + 1)] := by
      rw [engRead_memLink]
      simp [List.range_succ]
    rw [scanWalk, hread]
    simp only [and_ffff, hid, hlen]
    rw [if_neg hne]
    rw [ih (ptr + 2 + len) f hrest (by simp at hfuel; omega)]
    simp only [modelsOfChain]

/-- C4: once the probe locates the signature at base `B`, the walk reads
2-register headers from `B + 2`; every header whose id is not `0xFFFF`
is recorded as `DiscoveredModel(id, length, header address + 2)` and the
pointer advances by `2 + length`; the `0xFFFF` header terminates the
walk unrecorded; and the resulting `ScanResult` replaces any previous
engine state. -/
theorem claim_C4_model_chain_walk :
    ∀ (mem : ℕ → ℕ) (cands : List ℕ) (fuel : ℕ) (st : EngineState) (B : ℕ)
      (chain : List (ℕ × ℕ)),
      scanProbe (memLink mem) cands = .ok B →
      chainLayout mem (B + 2) chain = true →
      chain.length < fuel →
      scan (memLink mem) cands fuel st =
        (.ok ⟨B, modelsOfChain (B + 2) chain⟩,
          ⟨some ⟨B, modelsOfChain (B + 2) chain⟩⟩) := by
  intro mem cands fuel st B chain hprobe hlay hfuel
  simp only [scan, hprobe, scanWalk_chain mem chain (B + 2) fuel hlay hfuel]

/-- Witness for C4: the spec's scenario — signature at 40000, one header
`(1, 64)` at 40002, terminator after the 64 data registers — yields
exactly one `DiscoveredModel {id 1, length 64, data_address 40004}`,
from any prior engine state (here one holding an older scan). -/
theorem claim_C4_model_chain_walk_witness :
    scanProbe (memLink memScenario) baseCandidatesDefault = .ok 40000 ∧
    chainLayout memScenario (40000 + 2) [(1, 64)] = true ∧
    scan (memLink memScenario) baseCandidatesDefault 10 stWithModel7 =
      (.ok ⟨40000, [⟨1, 64, 40004⟩]⟩, ⟨some ⟨40000, [⟨1, 64, 40004⟩]⟩⟩) := by
  have e0 : engRead (memLink memScenario) 0 2 = .ok [0, 0] := by
    rw [engRead_memLink]
    simp [List.range_succ, memScenario]
  have e1 : engRead (memLink memScenario) 40000 2 = .ok [0x5375, 0x6e53] := by
    rw [engRead_memLink]
    simp [List.range_succ, memScenario]
  have hprobe : scanProbe (memLink memScenario) baseCandidatesDefault =
      .ok 40000 := by
    rw [baseCandidatesDefault, scanProbe, e0]
    show (if String.mk ((decodeStringFromRegs [0, 0]).take 4) = "SunS"
        then (Except.ok 0 : Except EngErr ℕ)
        else scanProbe (memLink memScenario) [40000, 50000]) = Except.ok 40000
    rw [if_neg (by decide)]
    rw [scanProbe, e1]
    show (if String.mk ((decodeStringFromRegs [0x5375, 0x6e53]).take 4) = "SunS"
        then (Except.ok 40000 : Except EngErr ℕ)
        else scanProbe (memLink memScenario) [50000]) = Except.ok 40000
    rw [if_pos (by decide)]
  have hlay : chainLayout memScenario (40000 + 2) [(1, 64)] = true := by decide
  refine ⟨hprobe, hlay, ?_⟩
  have h := claim_C4_model_chain_walk memScenario baseCandidatesDefault 10
    stWithModel7 40000 [(1, 64)] hprobe hlay (by norm_num)
  simpa [modelsOfChain] using h

/-- Counterexample to C3 as stated: model 7 is present in the scan
result but has no loaded schema; `read_model` surfaces the registry's
`KeyError`, not the engine's ModelNotFound error kind. -/
theorem claim_C3_counterexample :
    read_model (memLink memScenario) emptyRegistry stWithModel7 7 =
      .error .keyError ∧ EngErr.keyError ≠ EngErr.modelNotFound := by
  have hread : engRead (memLink memScenario) 40004 2 = .ok [0, 0] := by
    rw [engRead_memLink]
    simp [List.range_succ, memScenario]
  constructor
  · simp [read_model, stWithModel7, emptyRegistry, hread]
  · decide

/-- C3 (amended): `read_model` fails with the Scan error when no scan
has completed, with ModelNotFound when the id has no entry in the scan
result, and — when the id is in the scan but no schema is loaded — with
the registry's `KeyError` (not the engine's ModelNotFound kind). -/
theorem claim_C3_read_model_errors :
    (∀ (link : Link) (registry : ℕ → Option ModelDef) (mid : ℕ),
      read_model link registry ⟨none⟩ mid = .error .scanErr) ∧
    (∀ (link : Link) (registry : ℕ → Option ModelDef) (st : EngineState)
      (sc : ScanResult) (mid : ℕ), st.scan = some sc →
      sc.models.filter (fun m => m.model_id = mid) = [] →
      read_model link registry st mid = .error .modelNotFound) ∧
    (∀ (link : Link) (registry : ℕ → Option ModelDef) (st : EngineState)
      (sc : ScanResult) (mid : ℕ) (m : DiscoveredModel)
      (ms : List DiscoveredModel) (regs : List ℕ), st.scan = some sc →
      sc.models.filter (fun x => x.model_id = mid) = m :: ms →
      engRead link m.data_address m.length = .ok regs →
      registry mid = none →
      read_model link registry st mid = .error .keyError) := by
  refine ⟨fun link registry mid => rfl, ?_, ?_⟩
  · intro link registry st sc mid hscan hfilter
    simp only [read_model, hscan, hfilter]
  · intro link registry st sc mid m ms regs hscan hfilter hread hreg
    simp only [read_model, hscan, hfilter, hread, hreg]

/-- Witness for C3 (amended): the scan-missing, id-missing and
schema-missing cases at concrete states. -/
theorem claim_C3_read_model_errors_witness :
    (read_model (memLink memScenario) emptyRegistry ⟨none⟩ 7 =
      .error .scanErr) ∧
    (read_model (memLink memScenario) emptyRegistry stWithModel7 8 =
      .error .modelNotFound) ∧
    (read_model (memLink memScenario) emptyRegistry stWithModel7 7 =
      .error .keyError) := by
  obtain ⟨c1, c2, c3⟩ := claim_C3_read_model_errors
  refine ⟨c1 (memLink memScenario) emptyRegistry 7, ?_, ?_⟩
  · exact c2 (memLink memScenario) emptyRegistry stWithModel7
      ⟨40000, [⟨7, 2, 40004⟩]⟩ 8 rfl (by rfl)
  · refine c3 (memLink memScenario) emptyRegistry stWithModel7
      ⟨40000, [⟨7, 2, 40004⟩]⟩ 7 ⟨7, 2, 40004⟩ [] [0, 0] rfl (by rfl) ?_ rfl
    rw [engRead_memLink]
    simp [List.range_succ, memScenario]

/-! ## String decoding lemmas -/

/-- The first `L` bytes of the word byte stream, positionally: byte `j`
comes from register `j / 2`, high half when `j` is even. -/
lemma flatMap_wordBytes_take :
    ∀ (l : List ℕ) (L : ℕ), L ≤ 2 * l.length →
      (l.flatMap wordBytes).take L =
        (List.range L).map (fun j =>
          ((l.getD (j / 2) 0 &&& 0xFFFF) >>>
            (if j % 2 = 0 then 8 else 0)) &&& 0xFF) := by
  intro l
  induction l with
  | nil =>
    intro L hL
    have : L = 0 := by simpa using hL
    subst this
    simp
  | cons w tl ih =>
    intro L hL
    match L with
    | 0 => simp
    | 1 =>
      simp [wordBytes, List.range_succ]
    | Lm + 2 =>
      have htl : Lm ≤ 2 * tl.length := by
        simp only [List.length_cons] at hL
        omega
      have hsplit : List.range (Lm + 2) =
          0 :: 1 :: (List.range Lm).map (fun j => j + 2) := by
        rw [List.range_succ_eq_map, List.range_succ_eq_map, List.map_cons,
          List.map_map]
        rfl
      rw [hsplit]
      simp only [List.flatMap_cons, wordBytes, List.map_cons, List.map_map]
      simp only [List.cons_append, List.take_succ_cons, List.nil_append]
      congr 1
      congr 1
      rw [ih Lm htl]
      apply List.map_congr_left
      intro j hj
      simp only [Function.comp]
      have h1 : (j + 2) / 2 = j / 2 + 1 := by omega
      have h2 : (j + 2) % 2 = j % 2 := by omega
      rw [h1, h2]
      rfl

lemma getD_take_eq (l : List ℕ) (n i : ℕ) (h : i < n) :
    (l.take n).getD i 0 = l.getD i 0 := by
  simp [List.getD_eq_getElem?_getD, List.getElem?_take, h]

/-- Right-trimming removes everything from an all-NUL/space string. -/
lemma rstripNulSpace_eq_nil (cs : List Char)
    (h : ∀ c ∈ cs, c = '\x00' ∨ c = ' ') : rstripNulSpace cs = [] := by
  rw [rstripNulSpace]
  have hdrop : cs.reverse.dropWhile
      (fun c => decide (c = '\x00' ∨ c = ' ')) = [] := by
    rw [List.dropWhile_eq_nil_iff]
    intro c hc
    simpa using h c (List.mem_reverse.mp hc)
  simp only [hdrop, List.reverse_nil]

/-- Counterexample to C8 as stated: a non-ASCII byte (`0xFF` in register
`0xFF41`) is dropped by the source's `errors="ignore"` decode — the
result is `"A"` — whereas best-effort replacement, as the claim words
it, would keep a replacement character. -/
theorem claim_C8_counterexample :
    decode_string [0xFF41] 2 = .ok ⟨some (.s "A"), 1⟩ ∧
    decode_string_replacement [0xFF41] 2 = .ok ⟨some (.s "�A"), 1⟩ ∧
    ("A" : String) ≠ "�A" := by
  refine ⟨rfl, rfl, by decide⟩

/-- C8 (amended): a string point of byte length L consumes
`ceil(L/2) = (L+1)/2` registers; byte `j` of the output stream is the
high (even `j`) or low (odd `j`) byte of register `j/2`; bytes beyond L
are discarded; non-ASCII bytes are *dropped* (ignored, not replaced);
trailing NUL/space characters are trimmed; an all-padding input decodes
to the empty string; and the result is never "absent". -/
theorem claim_C8_string_decoding :
    (∀ (regs : List ℕ) (L : ℕ), (L + 1) / 2 ≤ regs.length →
      decode_string regs L = .ok ⟨some (.s (String.mk (rstripNulSpace
        (asciiIgnore ((List.range L).map (fun j =>
          ((regs.getD (j / 2) 0 &&& 0xFFFF) >>>
            (if j % 2 = 0 then 8 else 0)) &&& 0xFF)))))), (L + 1) / 2⟩) ∧
    (∀ (regs : List ℕ) (L : ℕ), (L + 1) / 2 ≤ regs.length →
      (∀ b ∈ (regs.take ((L + 1) / 2)).flatMap wordBytes, b = 0 ∨ b = 32) →
      decode_string regs L = .ok ⟨some (.s ""), (L + 1) / 2⟩) ∧
    (∀ (regs : List ℕ) (L : ℕ), (L + 1) / 2 ≤ regs.length →
      ∃ s : String, decode_string regs L = .ok ⟨some (.s s), (L + 1) / 2⟩) := by
  refine ⟨?_, ?_, ?_⟩
  · intro regs L h
    simp only [decode_string]
    rw [if_pos h]
    have hlen : L ≤ 2 * (regs.take ((L + 1) / 2)).length := by
      simp only [List.length_take]
      omega
    rw [flatMap_wordBytes_take (regs.take ((L + 1) / 2)) L hlen]
    have heq : (List.range L).map (fun j =>
        (((regs.take ((L + 1) / 2)).getD (j / 2) 0 &&& 0xFFFF) >>>
          (if j % 2 = 0 then 8 else 0)) &&& 0xFF) =
        (List.range L).map (fun j =>
        ((regs.getD (j / 2) 0 &&& 0xFFFF) >>>
          (if j % 2 = 0 then 8 else 0)) &&& 0xFF) := by
      apply List.map_congr_left
      intro j hj
      have hj2 : j / 2 < (L + 1) / 2 := by
        simp only [List.mem_range] at hj
        omega
      rw [getD_take_eq regs ((L + 1) / 2) (j / 2) hj2]
    rw [heq]
  · intro regs L h hpad
    simp only [decode_string]
    rw [if_pos h]
    have hempty : rstripNulSpace (asciiIgnore
        (((regs.take ((L + 1) / 2)).flatMap wordBytes).take L)) = [] := by
      apply rstripNulSpace_eq_nil
      intro c hc
      simp only [asciiIgnore, List.mem_map, List.mem_filter] at hc
      obtain ⟨b, ⟨hb, _⟩, rfl⟩ := hc
      have hb2 := hpad b (List.take_subset L _ hb)
      rcases hb2 with rfl | rfl
      · left
        rfl
      · right
        rfl
    rw [hempty]
  · intro regs L h
    refine ⟨String.mk (rstripNulSpace (asciiIgnore
      (((regs.take ((L + 1) / 2)).flatMap wordBytes).take L))), ?_⟩
    simp only [decode_string]
    rw [if_pos h]

/-- Witness for C8 (amended): `"AB"` padded with a trailing space in two
registers, an all-padding register pair, and the never-absent shape. -/
theorem claim_C8_string_decoding_witness :
    ((3 + 1) / 2 ≤ ([0x4142, 0x2000] : List ℕ).length ∧
      decode_string [0x4142, 0x2000] 3 = .ok ⟨some (.s "AB"), 2⟩) ∧
    (decode_string [0x0020, 0x2000] 4 = .ok ⟨some (.s ""), 2⟩) ∧
    (∃ s : String, decode_string [0x0020, 0x2000] 4 =
      .ok ⟨some (.s s), (4 + 1) / 2⟩) := by
  obtain ⟨c1, c2, c3⟩ := claim_C8_string_decoding
  refine ⟨⟨by norm_num, ?_⟩, ?_, c3 [0x0020, 0x2000] 4 (by norm_num)⟩
  · have h := c1 [0x4142, 0x2000] 3 (by norm_num)
    exact h.trans (by rfl)
  · exact c2 [0x0020, 0x2000] 4 (by norm_num) (by decide)

/-! ## Decoder append-invariance lemmas (for C10) -/

lemma decode_int16_used (l : List ℕ) (res : DecodeResult)
    (h : decode_int16 l = .ok res) : res.regs_used = 1 := by
  match l with
  | [] => exact Except.noConfusion h
  | a :: t =>
    simp only [decode_int16] at h
    split at h <;> (cases h; rfl)

lemma decode_uint16_used (l : List ℕ) (res : DecodeResult)
    (h : decode_uint16 l = .ok res) : res.regs_used = 1 := by
  match l with
  | [] => exact Except.noConfusion h
  | a :: t =>
    simp only [decode_uint16] at h
    split at h <;> (cases h; rfl)

lemma decode_int32_used (l : List ℕ) (res : DecodeResult)
    (h : decode_int32 l = .ok res) : res.regs_used = 2 := by
  match l with
  | [] => exact Except.noConfusion h
  | [a] => exact Except.noConfusion h
  | a :: b :: t =>
    simp only [decode_int32] at h
    split at h <;> (cases h; rfl)

lemma decode_uint32_used (l : List ℕ) (res : DecodeResult)
    (h : decode_uint32 l = .ok res) : res.regs_used = 2 := by
  match l with
  | [] => exact Except.noConfusion h
  | [a] => exact Except.noConfusion h
  | a :: b :: t =>
    simp only [decode_uint32] at h
    split at h <;> (cases h; rfl)

lemma decode_int64_used (l : List ℕ) (res : DecodeResult)
    (h : decode_int64 l = .ok res) : res.regs_used = 4 := by
  match l with
  | [] | [_] | [_, _] | [_, _, _] => exact Except.noConfusion h
  | a :: b :: c :: d :: t =>
    simp only [decode_int64] at h
    split at h <;> (cases h; rfl)

lemma decode_uint64_used (l : List ℕ) (res : DecodeResult)
    (h : decode_uint64 l = .ok res) : res.regs_used = 4 := by
  match l with
  | [] | [_] | [_, _] | [_, _, _] => exact Except.noConfusion h
  | a :: b :: c :: d :: t =>
    simp only [decode_uint64] at h
    split at h <;> (cases h; rfl)

lemma decode_int16_append (l ext : List ℕ) (res : DecodeResult)
    (h : decode_int16 (l ++ ext) = .ok res)
    (hlen : res.regs_used ≤ l.length) : decode_int16 l = .ok res := by
  match l with
  | [] =>
    rw [decode_int16_used _ _ h] at hlen
    simp at hlen
  | a :: t => exact h

lemma decode_uint16_append (l ext : List ℕ) (res : DecodeResult)
    (h : decode_uint16 (l ++ ext) = .ok res)
    (hlen : res.regs_used ≤ l.length) : decode_uint16 l = .ok res := by
  match l with
  | [] =>
    rw [decode_uint16_used _ _ h] at hlen
    simp at hlen
  | a :: t => exact h

lemma decode_int32_append (l ext : List ℕ) (res : DecodeResult)
    (h : decode_int32 (l ++ ext) = .ok res)
    (hlen : res.regs_used ≤ l.length) : decode_int32 l = .ok res := by
  match l with
  | [] =>
    rw [decode_int32_used _ _ h] at hlen
    simp at hlen
  | [a] =>
    rw [decode_int32_used _ _ h] at hlen
    simp at hlen
  | a :: b :: t => exact h

lemma decode_uint32_append (l ext : List ℕ) (res : DecodeResult)
    (h : decode_uint32 (l ++ ext) = .ok res)
    (hlen : res.regs_used ≤ l.length) : decode_uint32 l = .ok res := by
  match l with
  | [] =>
    rw [decode_uint32_used _ _ h] at hlen
    simp at hlen
  | [a] =>
    rw [decode_uint32_used _ _ h] at hlen
    simp at hlen
  | a :: b :: t => exact h

lemma decode_int64_append (l ext : List ℕ) (res : DecodeResult)
    (h : decode_int64 (l ++ ext) = .ok res)
    (hlen : res.regs_used ≤ l.length) : decode_int64 l = .ok res := by
  match l with
  | [] | [_] | [_, _] | [_, _, _] =>
    rw [decode_int64_used _ _ h] at hlen
    simp at hlen
  | a :: b :: c :: d :: t => exact h

lemma decode_uint64_append (l ext : List ℕ) (res : DecodeResult)
    (h : decode_uint64 (l ++ ext) = .ok res)
    (hlen : res.regs_used ≤ l.length) : decode_uint64 l = .ok res := by
  match l with
  | [] | [_] | [_, _] | [_, _, _] =>
    rw [decode_uint64_used _ _ h] at hlen
    simp at hlen
  | a :: b :: c :: d :: t => exact h

lemma decode_string_append (l ext : List ℕ) (sb : ℕ) (res : DecodeResult)
    (h : decode_string (l ++ ext) sb = .ok res)
    (hlen : res.regs_used ≤ l.length) : decode_string l sb = .ok res := by
  simp only [decode_string] at h ⊢
  have hn : (sb + 1) / 2 ≤ (l ++ ext).length := by
    by_contra hc
    rw [if_neg hc] at h
    exact Except.noConfusion h
  rw [if_pos hn] at h
  have hused : res.regs_used = (sb + 1) / 2 := by
    cases h
    rfl
  rw [hused] at hlen
  rw [if_pos hlen]
  rw [List.take_append_of_le_length hlen] at h
  exact h

set_option maxHeartbeats 1000000 in
/-- A successful decode that fits inside the prefix `l` of `l ++ ext`
gives the same result on `l` alone. -/
lemma decode_value_append (typ : String) (l ext : List ℕ) (sz : Option ℕ)
    (res : DecodeResult) (h : decode_value typ (l ++ ext) sz = .ok res)
    (hlen : res.regs_used ≤ l.length) : decode_value typ l sz = .ok res := by
  by_cases hs : typ = "string"
  · simp only [decode_value, if_pos hs] at h ⊢
    match sz, h with
    | some sb, h => exact decode_string_append l ext sb res h hlen
  · simp only [decode_value, if_neg hs] at h ⊢
    cases hD : DECODERS typ with
    | none =>
      rw [hD] at h
      exact Except.noConfusion h
    | some d =>
      rw [hD] at h
      have h2 : d (l ++ ext) = .ok res := h
      show d l = Except.ok res
      unfold DECODERS at hD
      split_ifs at hD <;> cases hD
      · exact decode_int16_append l ext res h2 hlen
      · exact decode_uint16_append l ext res h2 hlen
      · exact decode_uint16_append l ext res h2 hlen
      · exact decode_uint16_append l ext res h2 hlen
      · exact decode_int32_append l ext res h2 hlen
      · exact decode_uint32_append l ext res h2 hlen
      · exact decode_uint32_append l ext res h2 hlen
      · exact decode_int64_append l ext res h2 hlen
      · exact decode_uint64_append l ext res h2 hlen
      · exact decode_uint64_append l ext res h2 hlen
      · exact decode_int16_append l ext res h2 hlen

/-! ## Parser cursor monotonicity and append invariance (for C10) -/

lemma parsePoint_mono (regs : List ℕ) (sfx : String) (p : PointDef)
    (s s2 : PState) (h : parsePoint regs sfx p s = .ok s2) : s.pos ≤ s2.pos := by
  simp only [parsePoint] at h
  split at h
  · cases h
    dsimp only []
    omega
  · cases hdec : decode_value p.type (regs.drop s.pos)
        (if p.type = "string" then some (p.size.getD 0) else none) with
    | error e =>
      rw [hdec] at h
      exact Except.noConfusion h
    | ok res =>
      rw [hdec] at h
      dsimp only [] at h
      split at h
      · cases hval : res.value with
        | none =>
          rw [hval] at h
          cases h
          dsimp only []
          omega
        | some v =>
          rw [hval] at h
          cases v with
          | i z =>
            cases h
            dsimp only []
            omega
          | q x => exact Except.noConfusion h
          | s str => exact Except.noConfusion h
      · cases h
        dsimp only []
        omega

lemma parsePoints_mono (regs : List ℕ) (sfx : String) :
    ∀ (ps : List PointDef) (s s2 : PState),
      parsePoints regs sfx ps s = .ok s2 → s.pos ≤ s2.pos := by
  intro ps
  induction ps with
  | nil =>
    intro s s2 h
    cases h
    omega
  | cons p ps ih =>
    intro s s2 h
    simp only [parsePoints] at h
    cases hp : parsePoint regs sfx p s with
    | error e =>
      rw [hp] at h
      exact Except.noConfusion h
    | ok s3 =>
      rw [hp] at h
      exact le_trans (parsePoint_mono regs sfx p s s3 hp) (ih s3 s2 h)

lemma parseIter_mono (regs : List ℕ) (sfx : String) (pts : List PointDef) :
    ∀ (n : ℕ) (s s2 : PState),
      parseIter regs sfx pts n s = .ok s2 → s.pos ≤ s2.pos := by
  intro n
  induction n with
  | zero =>
    intro s s2 h
    cases h
    omega
  | succ m ih =>
    intro s s2 h
    simp only [parseIter] at h
    cases hp : parsePoints regs sfx pts s with
    | error e =>
      rw [hp] at h
      exact Except.noConfusion h
    | ok s3 =>
      rw [hp] at h
      exact le_trans (parsePoints_mono regs sfx pts s s3 hp) (ih s3 s2 h)

lemma parseGroup_mono (regs : List ℕ) (sfx : String) (g : GroupDef)
    (s s2 : PState) (h : parseGroup regs sfx g s = .ok s2) : s.pos ≤ s2.pos := by
  simp only [parseGroup] at h
  cases hr : groupRepeats g s with
  | error e =>
    rw [hr] at h
    exact Except.noConfusion h
  | ok n =>
    rw [hr] at h
    exact parseIter_mono regs sfx g.points n s s2 h

lemma parseGroups_mono (regs : List ℕ) :
    ∀ (gs : List GroupDef) (s s2 : PState),
      parseGroups regs gs s = .ok s2 → s.pos ≤ s2.pos := by
  intro gs
  induction gs with
  | nil =>
    intro s s2 h
    cases h
    omega
  | cons g gs ih =>
    intro s s2 h
    simp only [parseGroups] at h
    cases hg : parseGroup regs "" g s with
    | error e =>
      rw [hg] at h
      exact Except.noConfusion h
    | ok s3 =>
      rw [hg] at h
      exact le_trans (parseGroup_mono regs "" g s s3 hg) (ih s3 s2 h)

lemma parsePoint_append (regs ext : List ℕ) (sfx : String) (p : PointDef)
    (s s2 : PState) (h : parsePoint (regs ++ ext) sfx p s = .ok s2)
    (hle : s2.pos ≤ regs.length) : parsePoint regs sfx p s = .ok s2 := by
  by_cases hpad : p.type = "pad"
  · simp only [parsePoint, if_pos hpad] at h ⊢
    exact h
  · simp only [parsePoint, if_neg hpad] at h ⊢
    cases hdec : decode_value p.type ((regs ++ ext).drop s.pos)
        (if p.type = "string" then some (p.size.getD 0) else none) with
    | error e =>
      rw [hdec] at h
      exact Except.noConfusion h
    | ok res =>
      rw [hdec] at h
      have hA := h
      have hpos : s2.pos = s.pos + res.regs_used := by
        dsimp only [] at hA
        split at hA
        · cases hval : res.value with
          | none =>
            rw [hval] at hA
            cases hA
            rfl
          | some v =>
            rw [hval] at hA
            cases v with
            | i z =>
              cases hA
              rfl
            | q x => exact Except.noConfusion hA
            | s str => exact Except.noConfusion hA
        · cases hA
          rfl
      have hsp : s.pos ≤ regs.length := by omega
      have hdrop : (regs ++ ext).drop s.pos = regs.drop s.pos ++ ext :=
        List.drop_append_of_le_length hsp
      rw [hdrop] at hdec
      have hb : res.regs_used ≤ (regs.drop s.pos).length := by
        rw [List.length_drop]
        omega
      rw [decode_value_append p.type (regs.drop s.pos) ext
        (if p.type = "string" then some (p.size.getD 0) else none) res hdec hb]
      exact h

lemma parsePoints_append (regs ext : List ℕ) (sfx : String) :
    ∀ (ps : List PointDef) (s s2 : PState),
      parsePoints (regs ++ ext) sfx ps s = .ok s2 → s2.pos ≤ regs.length →
      parsePoints regs sfx ps s = .ok s2 := by
  intro ps
  induction ps with
  | nil =>
    intro s s2 h hle
    exact h
  | cons p ps ih =>
    intro s s2 h hle
    simp only [parsePoints] at h ⊢
    cases hp : parsePoint (regs ++ ext) sfx p s with
    | error e =>
      rw [hp] at h
      exact Except.noConfusion h
    | ok s3 =>
      rw [hp] at h
      have h3le : s3.pos ≤ regs.length :=
        le_trans (parsePoints_mono (regs ++ ext) sfx ps s3 s2 h) hle
      rw [parsePoint_append regs ext sfx p s s3 hp h3le]
      exact ih s3 s2 h hle

lemma parseIter_append (regs ext : List ℕ) (sfx : String) (pts : List PointDef) :
    ∀ (n : ℕ) (s s2 : PState),
      parseIter (regs ++ ext) sfx pts n s = .ok s2 → s2.pos ≤ regs.length →
      parseIter regs sfx pts n s = .ok s2 := by
  intro n
  induction n with
  | zero =>
    intro s s2 h hle
    exact h
  | succ m ih =>
    intro s s2 h hle
    simp only [parseIter] at h ⊢
    cases hp : parsePoints (regs ++ ext) sfx pts s with
    | error e =>
      rw [hp] at h
      exact Except.noConfusion h
    | ok s3 =>
      rw [hp] at h
      have h3le : s3.pos ≤ regs.length :=
        le_trans (parseIter_mono (regs ++ ext) sfx pts m s3 s2 h) hle
      rw [parsePoints_append regs ext sfx pts s s3 hp h3le]
      exact ih s3 s2 h hle

lemma parseGroup_append (regs ext : List ℕ) (sfx : String) (g : GroupDef)
    (s s2 : PState) (h : parseGroup (regs ++ ext) sfx g s = .ok s2)
    (hle : s2.pos ≤ regs.length) : parseGroup regs sfx g s = .ok s2 := by
  simp only [parseGroup] at h ⊢
  cases hr : groupRepeats g s with
  | error e =>
    rw [hr] at h
    exact Except.noConfusion h
  | ok n =>
    rw [hr] at h
    exact parseIter_append regs ext sfx g.points n s s2 h hle

lemma parseGroups_append (regs ext : List ℕ) :
    ∀ (gs : List GroupDef) (s s2 : PState),
      parseGroups (regs ++ ext) gs s = .ok s2 → s2.pos ≤ regs.length →
      parseGroups regs gs s = .ok s2 := by
  intro gs
  induction gs with
  | nil =>
    intro s s2 h hle
    exact h
  | cons g gs ih =>
    intro s s2 h hle
    simp only [parseGroups] at h ⊢
    cases hg : parseGroup (regs ++ ext) "" g s with
    | error e =>
      rw [hg] at h
      exact Except.noConfusion h
    | ok s3 =>
      rw [hg] at h
      have h3le : s3.pos ≤ regs.length :=
        le_trans (parseGroups_mono (regs ++ ext) gs s3 s2 h) hle
      rw [parseGroup_append regs ext "" g s s3 hg h3le]
      exact ih s3 s2 h hle

/-- C10: whenever the parse of a schema consumes at most `regs.length`
registers (its consumption witnessed by a run on any extension of
`regs`), the bounds-checked parse of `regs` itself succeeds with the
same result — every decode step stays inside the slice, no
out-of-bounds error is raised, and a `ModelParseResult` is returned. -/
theorem claim_C10_parse_in_bounds :
    ∀ (model : ModelDef) (regs ext : List ℕ) (s2 : PState),
      parseGroups (regs ++ ext) model.groups initPState = .ok s2 →
      s2.pos ≤ regs.length →
      parseGroups regs model.groups initPState = .ok s2 ∧
      parse model regs = .ok ⟨model.id, model.name, s2.out⟩ := by
  intro model regs ext s2 h hle
  have hg := parseGroups_append regs ext model.groups initPState s2 h hle
  refine ⟨hg, ?_⟩
  simp only [parse, hg]

/-- Witness for C10: the two-point scale-factor model parsed from a
2-register slice whose parse consumes exactly 2 registers, with a
4-register extension witnessing the consumption. -/
theorem claim_C10_parse_in_bounds_witness :
    ∃ s2 : PState,
      (parseGroups ([0xFFFF, 200] ++ [9, 9]) sfModel.groups initPState =
        .ok s2 ∧ s2.pos ≤ ([0xFFFF, 200] : List ℕ).length) ∧
      (parseGroups [0xFFFF, 200] sfModel.groups initPState = .ok s2 ∧
        parse sfModel [0xFFFF, 200] = .ok ⟨sfModel.id, sfModel.name, s2.out⟩) := by
  refine ⟨_, ⟨rfl, by decide⟩,
    claim_C10_parse_in_bounds sfModel [0xFFFF, 200] [9, 9] _ rfl (by decide)⟩

end SunSpec

